import Mathlib

/-!
Verification of the filter-cavity auto-tuning controller
(`fc_tune.py`, `meas_findRes.py`) and of the Zaber serial protocol
helpers (`zaber/serial/*.py`), as a shallow embedding in Lean 4.

Frequencies, bandwidths, amplitudes and motor positions are embedded as
rationals.  Instrument responses (traces, detected resonances, measured
depths) are environment inputs and enter the models as explicit
arguments.  Python `float` arithmetic is embedded as exact rational
arithmetic.
-/

namespace FiltCav

attribute [local semireducible] Rat.add Rat.sub Rat.mul Rat.inv Rat.ofScientific

/-- Python's `abs` on floats, embedded on ℚ (spelled out so that concrete
evaluations reduce). -/
def pyAbs (q : ℚ) : ℚ := if q < 0 then -q else q

/-- The embedded `pyAbs` agrees with the mathematical absolute value. -/
theorem pyAbs_eq_abs (q : ℚ) : pyAbs q = |q| := by
  rw [pyAbs]
  split
  · rw [abs_of_neg (by assumption)]
  · rw [abs_of_nonneg (le_of_not_lt (by assumption))]

/-! ### VNA sweep planning (claim C2)

`meas_findRes.py`, `phasegrad_VNA` (lines 61-76) plans the sweep used for
resonance detection; `fc_tune.py`, `set_vna` (lines 333-343) configures
the sweeps used by the depth probe and the Nelder-Mead callback. -/

/-- Sweep plan computed by `phasegrad_VNA`: the span and number of points
of each acquired sub-interval trace, and the number of sub-intervals. -/
structure SweepPlan where
  span : ℚ
  nop : ℚ
  subints : ℤ
deriving Repr, DecidableEq

/-- `phasegrad_VNA`: `span = fmax - fmin`, `nop = points * span / rbw`;
if `nop > max_nop` the span is divided into `ceil(nop / max_nop)`
sub-intervals and `nop` is clamped to `max_nop`. -/
def phasegradPlan (fmin fmax resolution maxNop points : ℚ) : SweepPlan :=
  let span := fmax - fmin
  let nop := points * span / resolution
  if maxNop < nop then
    let subints : ℤ := ⌈nop / maxNop⌉
    { span := span / (subints : ℚ), nop := maxNop, subints := subints }
  else
    { span := span, nop := nop, subints := 1 }

/-- `fc_tune.py`, `res_detect` (line 321) acquires its trace through
`phasegrad_VNA` with `points=1, max_nop=5e4, resolution=rbw`. -/
def resDetectPlan (startfreq stopfreq rbw : ℚ) : SweepPlan :=
  phasegradPlan startfreq stopfreq rbw 50000 1

/-- `fc_tune.py`, `set_vna` (line 339): `nop = 5 * vna_span / rbw`. -/
def setVnaNop (vnaSpan rbw : ℚ) : ℚ := 5 * vnaSpan / rbw

/-- C2 counterexample: the trace `res_detect` takes over the 200 MHz
window used by `costfunction` (rbw 50 kHz) has `nop = 4000` points, which
is strictly fewer than `5 * span / rbw = 20000`: the detection sweep is
planned with 1 point per bandwidth, not 5. -/
theorem C2_counterexample :
    (resDetectPlan (5.2e9 - 1e8) (5.2e9 + 1e8) 5e4).nop
      < 5 * (resDetectPlan (5.2e9 - 1e8) (5.2e9 + 1e8) 5e4).span / 5e4 := by
  norm_num [resDetectPlan, phasegradPlan]

/-- C2 amended: every trace acquired for resonance detection satisfies
`nop ≥ 1 · span / rbw` for the sub-interval sweep actually taken
(points-per-bandwidth at least 1, the `points=1` argument of
`res_detect`);  the factor-5 relation `nop = 5 · span / rbw` holds
instead for the sweeps configured through `set_vna`. -/
theorem C2_amended_points_per_bandwidth (startfreq stopfreq rbw : ℚ)
    (hs : startfreq < stopfreq) (hr : 0 < rbw) :
    (resDetectPlan startfreq stopfreq rbw).span / rbw
      ≤ (resDetectPlan startfreq stopfreq rbw).nop
    ∧ ∀ vnaSpan : ℚ, setVnaNop vnaSpan rbw = 5 * vnaSpan / rbw := by
  refine ⟨?_, fun _ => rfl⟩
  unfold resDetectPlan phasegradPlan
  set span := stopfreq - startfreq with hspan
  have hspan0 : 0 < span := by simp [hspan]; linarith
  simp only []
  by_cases hbig : (50000 : ℚ) < 1 * span / rbw
  · rw [if_pos hbig]
    have hn0 : (0 : ℚ) < span / rbw := div_pos hspan0 hr
    have hceil : (1 * span / rbw) / 50000 ≤ (⌈(1 * span / rbw) / 50000⌉ : ℚ) :=
      Int.le_ceil _
    have hcpos : (0 : ℚ) < (⌈(1 * span / rbw) / 50000⌉ : ℚ) := by
      have : (0 : ℚ) < (1 * span / rbw) / 50000 := by
        rw [one_mul]; positivity
      linarith
    simp only
    rw [div_div]
    rw [div_le_iff₀ (by positivity)]
    rw [one_mul] at hceil ⊢
    have := (div_le_iff₀ (by norm_num : (0:ℚ) < 50000)).mp hceil
    calc span = (span / rbw) * rbw := by field_simp
    _ ≤ ((⌈span / rbw / 50000⌉ : ℚ) * 50000) * rbw := by
        have h50 := (div_le_iff₀ (by norm_num : (0:ℚ) < 50000)).mp hceil
        exact mul_le_mul_of_nonneg_right h50 (le_of_lt hr)
    _ = 50000 * ((⌈span / rbw / 50000⌉ : ℚ) * rbw) := by ring
  · rw [if_neg hbig]
    rw [one_mul]

/-- Witness for `C2_amended_points_per_bandwidth` at a concrete 10 GHz
window with rbw 10 kHz (a sweep that does get split into
sub-intervals). -/
theorem C2_amended_points_per_bandwidth_witness :
    (resDetectPlan 0 1e10 1e4).span / 1e4 ≤ (resDetectPlan 0 1e10 1e4).nop
    ∧ ∀ vnaSpan : ℚ, setVnaNop vnaSpan 1e4 = 5 * vnaSpan / 1e4 :=
  C2_amended_points_per_bandwidth 0 1e10 1e4 (by norm_num) (by norm_num)

/-! ### Nelder-Mead span-narrowing schedule (claim C6)

`fc_tune.py`, `fine_tune_nm`: the globals `nstep = 0`, `vnaspan = 200e6`
are initialised before the `minimize` call (lines 51-58); `callback`
(lines 124-136) increments `nstep` and narrows `vnaspan`; the cost
evaluation `f` (line 79) reads the current `vnaspan`. -/

/-- The pair of globals `(nstep, vnaspan)` shared by `f` and `callback`. -/
structure NMSpanState where
  nstep : ℕ
  vnaspan : ℚ
deriving Repr, DecidableEq

/-- Initial values: `nstep = 0`, `vnaspan = 200e6` (lines 55-56). -/
def nmSpanInit : NMSpanState := { nstep := 0, vnaspan := 200e6 }

/-- One `callback` invocation: `nstep += 1`; `if nstep > 5: vnaspan =
100e6`; `if nstep > 20: vnaspan = 50e6` (lines 131-135). -/
def callbackSpanStep (s : NMSpanState) : NMSpanState :=
  let n := s.nstep + 1
  let sp1 := if 5 < n then (100e6 : ℚ) else s.vnaspan
  let sp2 := if 20 < n then (50e6 : ℚ) else sp1
  { nstep := n, vnaspan := sp2 }

/-- State of the narrowing globals after `n` callback invocations; every
cost evaluation performed between callback `n` and callback `n+1` calls
`costfunction(fr, span=vnaspan)` with this `vnaspan`. -/
def spanStateAfter (n : ℕ) : NMSpanState := callbackSpanStep^[n] nmSpanInit

/-- C6: after `n` iterations the iteration counter equals `n` and the VNA
span used by the cost evaluation is 200 MHz while `n ≤ 5`, 100 MHz for
`6 ≤ n ≤ 20`, and 50 MHz for `n > 20`. -/
theorem C6_span_schedule (n : ℕ) :
    (spanStateAfter n).nstep = n ∧
    (spanStateAfter n).vnaspan =
      (if n ≤ 5 then (200e6 : ℚ) else if n ≤ 20 then 100e6 else 50e6) := by
  induction n with
  | zero => exact ⟨rfl, rfl⟩
  | succ k ih =>
    obtain ⟨h1, h2⟩ := ih
    rw [spanStateAfter, Function.iterate_succ_apply'] at *
    refine ⟨by simp [callbackSpanStep, h1], ?_⟩
    simp only [callbackSpanStep, h1, h2]
    split_ifs <;> first | rfl | omega

/-! ### Coarse-puller iteration cap (claim C7)

`fc_tune.py`, `lin_stage_fine_tune` (lines 213-229): the while-loop that
pulls the selected resonance toward the target.  The environment is the
sequence of `res_detect` outcomes, one per loop body; the model counts
executed loop bodies, each of which performs exactly one `move_adapt`
call.  The `fuel` argument strictly dominates the loop's own `m`-cap, so
for `fuel ≥ 27` the model exits only through the loop's own tests. -/

/-- Loop body count of the coarse puller.  State: `delf` is the current
frequency offset, `m` the loop counter, `k` indexes the environment's
detection outcomes.  Mirrors: `while abs(delf) > 1e6:` ... `m += 1`;
`if m > 25: break`; `if len(sel_res) == 0: ...; break`;
`delf = fr - sel_res[0]`. -/
def pullLoopCount (fr : ℚ) (detect : ℕ → List ℚ) : ℕ → ℚ → ℕ → ℕ → ℕ
  | 0, _, _, _ => 0
  | fuel + 1, delf, m, k =>
    if 1e6 < pyAbs delf then
      if 25 < m + 1 then 1
      else
        match detect k with
        | [] => 1
        | r :: _ => 1 + pullLoopCount fr detect fuel (fr - r) (m + 1) (k + 1)
    else 0

/-- Number of adaptive moves (loop bodies) executed by
`lin_stage_fine_tune` starting from offset `delf0`. -/
def pullMoves (fr : ℚ) (detect : ℕ → List ℚ) (delf0 : ℚ) : ℕ :=
  pullLoopCount fr detect 27 delf0 0 0

/-- Helper bound: from loop counter `m ≤ 25` the loop executes at most
`26 - m` further bodies, whatever the detection outcomes. -/
theorem pullLoopCount_le (fr : ℚ) (detect : ℕ → List ℚ) :
    ∀ fuel delf m k, m ≤ 25 → pullLoopCount fr detect fuel delf m k ≤ 26 - m := by
  intro fuel
  induction fuel with
  | zero => intro delf m k _; simp [pullLoopCount]
  | succ f ih =>
    intro delf m k hm
    rw [pullLoopCount]
    split
    · split
      · omega
      · split
        · omega
        · rename_i r rest heq
          have := ih (fr - r) (m + 1) (k + 1) (by omega)
          omega
    · omega

/-- C7 counterexample: with the detector persistently reporting a
resonance 2 MHz away from the target, the coarse-pull loop executes 26
loop bodies (26 adaptive moves), exceeding the claimed cap of 25. -/
theorem C7_counterexample :
    pullMoves 0 (fun _ => [-(2e6 : ℚ)]) 2e6 = 26
    ∧ ¬ pullMoves 0 (fun _ => [-(2e6 : ℚ)]) 2e6 ≤ 25 := by
  constructor <;> decide

/-- C7 amended: for every target frequency and every sequence of measured
offsets, the coarse-puller while-loop executes at most 26 iterations (at
most 26 adaptive moves) before exiting, even if the residual offset stays
above 1 MHz: the `m > 25` test runs after the 26th increment, so the cap
admits one more body than the claimed 25. -/
theorem C7_amended_move_cap (fr : ℚ) (detect : ℕ → List ℚ) (delf0 : ℚ) :
    pullMoves fr detect delf0 ≤ 26 := by
  simpa using pullLoopCount_le fr detect 27 delf0 0 0 (by norm_num)

/-! ### Helpers: `np.min` and `np.argmin` on embedded arrays -/

/-- Running minimum behind `np.min` (strict-`<` update keeps the first
occurrence). -/
def npMinAux (b : ℚ) : List ℚ → ℚ
  | [] => b
  | x :: rest => npMinAux (if x < b then x else b) rest

/-- `np.min` of an array: `none` on an empty array (where numpy raises
`ValueError`). -/
def npMin : List ℚ → Option ℚ
  | [] => none
  | x :: rest => some (npMinAux x rest)

/-- Pair-valued running argmin behind `np.argmin` (first index of the
minimum); `acc` is the best `(value, index)` so far, `cur` the index of
the head of the remaining list. -/
def npArgminAux : List ℚ → ℚ × ℕ → ℕ → ℚ × ℕ
  | [], acc, _ => acc
  | x :: rest, acc, cur =>
    if x < acc.1 then npArgminAux rest (x, cur) (cur + 1)
    else npArgminAux rest acc (cur + 1)

/-- `np.argmin` of an array: first index attaining the minimum, `none` on
an empty array (where numpy raises `ValueError`). -/
def npArgmin (xs : List ℚ) : Option ℕ :=
  match xs with
  | [] => none
  | x :: rest => some (npArgminAux rest (x, 0) 1).2

theorem npMinAux_le_mem (rest : List ℚ) :
    ∀ b, npMinAux b rest ≤ b ∧ ∀ x ∈ rest, npMinAux b rest ≤ x := by
  induction rest with
  | nil => intro b; exact ⟨le_refl _, by simp⟩
  | cons x rest ih =>
    intro b
    rw [npMinAux]
    constructor
    · split
      · exact le_trans (ih x).1 (le_of_lt (by assumption))
      · exact (ih b).1
    · intro y hy
      rcases List.mem_cons.mp hy with h | h
      · subst h
        split
        · exact (ih y).1
        · exact le_trans (ih b).1 (le_of_not_lt (by assumption))
      · split
        · exact (ih x).2 y h
        · exact (ih b).2 y h

theorem npMinAux_mem (rest : List ℚ) :
    ∀ b, npMinAux b rest = b ∨ npMinAux b rest ∈ rest := by
  induction rest with
  | nil => intro b; exact Or.inl rfl
  | cons x rest ih =>
    intro b
    rw [npMinAux]
    split
    · rcases ih x with h | h
      · exact Or.inr (by rw [h]; exact List.mem_cons_self x rest)
      · exact Or.inr (List.mem_cons_of_mem x h)
    · rcases ih b with h | h
      · exact Or.inl h
      · exact Or.inr (List.mem_cons_of_mem x h)

/-- The value `np.min` returns is an element of the array. -/
theorem npMin_mem {xs : List ℚ} {v : ℚ} (h : npMin xs = some v) : v ∈ xs := by
  cases xs with
  | nil => simp [npMin] at h
  | cons x rest =>
    rw [npMin, Option.some_inj] at h
    rcases npMinAux_mem rest x with h' | h'
    · rw [← h, h']
      exact List.mem_cons_self x rest
    · rw [← h]
      exact List.mem_cons_of_mem x h'

/-- The value `np.min` returns is a lower bound of the array. -/
theorem npMin_le {xs : List ℚ} {v : ℚ} (h : npMin xs = some v) :
    ∀ x ∈ xs, v ≤ x := by
  cases xs with
  | nil => simp [npMin] at h
  | cons x rest =>
    rw [npMin, Option.some_inj] at h
    intro y hy
    rcases List.mem_cons.mp hy with h' | h'
    · rw [← h, h']
      exact (npMinAux_le_mem rest x).1
    · rw [← h]
      exact (npMinAux_le_mem rest x).2 y h'

theorem npArgminAux_spec (rest : List ℚ) :
    ∀ b i cur,
      (npArgminAux rest (b, i) cur).1 ≤ b
      ∧ (∀ j, j < rest.length → (npArgminAux rest (b, i) cur).1 ≤ rest.getD j 0)
      ∧ (npArgminAux rest (b, i) cur = (b, i)
          ∨ ∃ j, j < rest.length
              ∧ rest.getD j 0 = (npArgminAux rest (b, i) cur).1
              ∧ (npArgminAux rest (b, i) cur).2 = cur + j) := by
  induction rest with
  | nil =>
    intro b i cur
    refine ⟨le_refl _, by simp, Or.inl rfl⟩
  | cons x rest ih =>
    intro b i cur
    rw [npArgminAux]
    by_cases hx : x < b
    · rw [if_pos hx]
      obtain ⟨h1, h2, h3⟩ := ih x cur (cur + 1)
      refine ⟨le_trans h1 (le_of_lt hx), ?_, ?_⟩
      · intro j hj
        cases j with
        | zero => simpa using h1
        | succ k => simpa using h2 k (by simpa using hj)
      · rcases h3 with h | ⟨j, hj, hv, hi⟩
        · refine Or.inr ⟨0, by simp, ?_, ?_⟩
          · simp [h]
          · simp [h]
        · exact Or.inr ⟨j + 1, by simpa using hj, by simpa using hv, by omega⟩
    · rw [if_neg hx]
      obtain ⟨h1, h2, h3⟩ := ih b i (cur + 1)
      refine ⟨h1, ?_, ?_⟩
      · intro j hj
        cases j with
        | zero => simpa using le_trans h1 (le_of_not_lt hx)
        | succ k => simpa using h2 k (by simpa using hj)
      · rcases h3 with h | ⟨j, hj, hv, hi⟩
        · exact Or.inl h
        · exact Or.inr ⟨j + 1, by simpa using hj, by simpa using hv, by omega⟩

/-- `np.argmin` succeeds on every nonempty array. -/
theorem npArgmin_isSome (xs : List ℚ) (h : xs ≠ []) : ∃ i, npArgmin xs = some i := by
  cases xs with
  | nil => exact absurd rfl h
  | cons x rest => exact ⟨_, rfl⟩

/-- Reading a mapped list at an in-range index is mapping the read. -/
theorem map_getD_ratfun (f : ℚ → ℚ) :
    ∀ (xs : List ℚ) (k : ℕ), k < xs.length →
      (xs.map f).getD k 0 = f (xs.getD k 0) := by
  intro xs
  induction xs with
  | nil => intro k hk; simp at hk
  | cons x rest ih =>
    intro k hk
    cases k with
    | zero => rfl
    | succ m => simpa using ih m (by simpa using hk)

/-- Specification of `np.argmin`: the returned index is in range and
indexes a minimal element. -/
theorem npArgmin_spec {xs : List ℚ} {i : ℕ} (h : npArgmin xs = some i) :
    i < xs.length ∧ ∀ k, k < xs.length → xs.getD i 0 ≤ xs.getD k 0 := by
  cases xs with
  | nil => simp [npArgmin] at h
  | cons x rest =>
    rw [npArgmin, Option.some_inj] at h
    obtain ⟨h1, h2, h3⟩ := npArgminAux_spec rest x 0 1
    rcases h3 with heq | ⟨j, hj, hv, hi⟩
    · rw [heq] at h
      subst h
      refine ⟨by simp, ?_⟩
      intro k hk
      cases k with
      | zero => simp
      | succ m =>
        have hm := h2 m (by simpa using hk)
        rw [heq] at hm
        simpa [List.getD] using hm
    · rw [hi] at h
      subst h
      refine ⟨by simp only [List.length_cons]; omega, ?_⟩
      intro k hk
      have hvi : (x :: rest).getD (1 + j) 0 = (npArgminAux rest (x, 0) 1).1 := by
        have hj1 : 1 + j = j + 1 := by omega
        rw [hj1]
        simpa [List.getD] using hv
      rw [hvi]
      cases k with
      | zero => simpa using h1
      | succ m =>
        have hm := h2 m (by simpa using hk)
        simpa [List.getD] using hm

/-! ### Cost function (claims C10, C4)

`fc_tune.py`, `costfunction` (lines 288-311): the detected resonance
candidates and the per-candidate `tone_depth_lin` measurements are
environment inputs. -/

/-- Result dictionary of `tone_depth_lin`: the fields `'depth'` (linear
amplitude squared) and `'Frequency'` (GHz, as `netw.trace` returns the
frequency axis). -/
structure ToneResult where
  depth : ℚ
  frequency : ℚ
deriving Repr, DecidableEq

/-- Global `err_depth = 10 ** -3` (fc_tune.py line 34). -/
def err_depth : ℚ := 1 / 1000

/-- Global `err_lin = 1e4` (fc_tune.py line 35). -/
def err_lin : ℚ := 1e4

/-- `costfunction(fr, span)`: detects resonances (list `resonances`,
already restricted by `res_detect` to `[fr - span/2, fr + span/2]`),
measures each with `tone_depth_lin` (environment function `measure`),
and returns `np.min((1e9*freq - fr)**2/err_lin**2 + depth**2/err_depth**2)`.
The result is `none` when no candidate was detected: `np.min` of an
empty array raises `ValueError` and the evaluation fails. -/
def costfunction (fr : ℚ) (resonances : List ℚ) (measure : ℚ → ToneResult) : Option ℚ :=
  let meas := resonances.map measure
  let lin := meas.map (fun t => (1e9 * t.frequency - fr) ^ 2 / err_lin ^ 2)
  let dep := meas.map (fun t => t.depth ^ 2 / err_depth ^ 2)
  npMin (List.zipWith (· + ·) lin dep)

/-- C10: a Nelder-Mead vertex evaluation through `costfunction` yields a
value exactly when the resonance detector returned at least one
candidate; on an empty detection result the evaluation fails (minimum
over an empty array) instead of returning a worst-case cost. -/
theorem C10_cost_defined_iff_candidates (fr : ℚ) (resonances : List ℚ)
    (measure : ℚ → ToneResult) :
    (∃ v, costfunction fr resonances measure = some v) ↔ resonances ≠ [] := by
  cases resonances with
  | nil => simp [costfunction, npMin]
  | cons r rest => simp [costfunction, npMin]

/-- Elements of a pointwise sum of two nonnegative lists are
nonnegative. -/
theorem zipWith_add_nonneg :
    ∀ l₁ l₂ : List ℚ, (∀ x ∈ l₁, 0 ≤ x) → (∀ x ∈ l₂, 0 ≤ x) →
      ∀ v ∈ List.zipWith (· + ·) l₁ l₂, 0 ≤ v := by
  intro l₁
  induction l₁ with
  | nil => intro l₂ _ _ v hv; simp at hv
  | cons x rest ih =>
    intro l₂ h1 h2 v hv
    cases l₂ with
    | nil => simp at hv
    | cons y rest₂ =>
      rw [List.zipWith_cons_cons] at hv
      rcases List.mem_cons.mp hv with h | h
      · subst h
        exact add_nonneg (h1 x (by simp)) (h2 y (by simp))
      · exact ih rest₂ (fun z hz => h1 z (by simp [hz]))
          (fun z hz => h2 z (by simp [hz])) v h

/-- Every defined cost value is nonnegative (sum of two squared,
positively-normalised terms); shared by the best-record analysis. -/
theorem costfunction_nonneg (fr : ℚ) (resonances : List ℚ)
    (measure : ℚ → ToneResult) (v : ℚ)
    (h : costfunction fr resonances measure = some v) : 0 ≤ v := by
  simp only [costfunction] at h
  refine zipWith_add_nonneg _ _ ?_ ?_ v (npMin_mem h)
  · intro x hx
    rcases List.mem_map.mp hx with ⟨t, _, rfl⟩
    exact div_nonneg (sq_nonneg _) (sq_nonneg _)
  · intro x hx
    rcases List.mem_map.mp hx with ⟨t, _, rfl⟩
    exact div_nonneg (sq_nonneg _) (sq_nonneg _)

/-- The global best-so-far update performed by `f` (fc_tune.py lines
86-88): `if level < level_min: level_min = level; x_min = x`. -/
def bestStep (s : (ℚ × ℚ) × ℚ) (e : (ℚ × ℚ) × ℚ) : (ℚ × ℚ) × ℚ :=
  if e.2 < s.2 then e else s

/-- Final `(x_min, level_min)` after a run of `f`-evaluations, from the
initialisation `x_min = [0, 0]`, `level_min = 0` (lines 53-54); `evals`
lists each evaluated point with its cost. -/
def bestRecord (evals : List ((ℚ × ℚ) × ℚ)) : (ℚ × ℚ) × ℚ :=
  evals.foldl bestStep ((0, 0), 0)

/-- The fold never moves off a state whose level is a lower bound of all
remaining costs. -/
theorem bestRecord_foldl_frozen (evals : List ((ℚ × ℚ) × ℚ)) :
    ∀ s : (ℚ × ℚ) × ℚ, (∀ e ∈ evals, s.2 ≤ e.2) → evals.foldl bestStep s = s := by
  induction evals with
  | nil => intro s _; rfl
  | cons e rest ih =>
    intro s hs
    rw [List.foldl_cons]
    have hstep : bestStep s e = s := by
      rw [bestStep, if_neg (not_lt.mpr (hs e (by simp)))]
    rw [hstep]
    exact ih s fun x hx => hs x (by simp [hx])

/-- C4 amended: the best-so-far record `(x_min, level_min)` is initialised
to `([0,0], 0)` and, because every defined cost value is nonnegative and
the update requires a strictly smaller cost, it is never updated: the
recorded best point stays `[0, 0]` for every run.  In particular its
coupling coordinate (0) is not below 0, but its length coordinate (0)
bears no relation to the bounds `[lin_ini - lin_span, lin_ini + lin_span]`
of the run. -/
theorem C4_amended_best_record_frozen (evals : List ((ℚ × ℚ) × ℚ))
    (h : ∀ e ∈ evals, 0 ≤ e.2) :
    bestRecord evals = ((0, 0), 0)
    ∧ 0 ≤ (bestRecord evals).1.2
    ∧ ∀ fr resonances measure v,
        costfunction fr resonances measure = some v → 0 ≤ v := by
  have hb : bestRecord evals = ((0, 0), 0) :=
    bestRecord_foldl_frozen evals ((0, 0), 0) h
  exact ⟨hb, by rw [hb], costfunction_nonneg⟩

/-- Witness for `C4_amended_best_record_frozen`: a two-evaluation run with
the concrete nonnegative costs 4 and 7/2. -/
theorem C4_amended_best_record_frozen_witness :
    bestRecord [((12.345, 3), 4), ((12.245, 5), 7/2)] = ((0, 0), 0)
    ∧ 0 ≤ (bestRecord [((12.345, 3), 4), ((12.245, 5), 7/2)]).1.2
    ∧ ∀ fr resonances measure v,
        costfunction fr resonances measure = some v → 0 ≤ v :=
  C4_amended_best_record_frozen _ (by decide)

/-- C4 counterexample: a run started at `lin_ini = 12.345 mm` with the
default `lin_span = 0.5 mm` whose single evaluation has the cost 4
(produced by `costfunction` at a concrete measurement): the recorded best
point stays `(0, 0)`, whose length coordinate 0 lies strictly below the
lower bound `lin_ini - lin_span = 11.845`. -/
theorem C4_counterexample :
    costfunction (5.2e9) [5.2e9] (fun _ => { depth := 1/500, frequency := 26/5 })
      = some 4
    ∧ bestRecord [((12.345, 3), 4)] = ((0, 0), 0)
    ∧ ¬ (12.345 - 0.5 ≤ (bestRecord [((12.345, 3), 4)]).1.1) := by
  refine ⟨?_, ?_, ?_⟩
  · norm_num [costfunction, npMin, npMinAux, err_lin, err_depth]
  · decide
  · norm_num [bestRecord, bestStep]

/-! ### Depth probe (claim C3)

`fc_tune.py`, `tone_depth_lin` (lines 265-284).  The acquired trace is an
environment input: `freqs` is the frequency axis in GHz (as returned by
`netw.trace`) and `trace` the complex samples (modelled as pairs of real
and imaginary part). -/

/-- `tone_depth_lin(centerfreq, span=0.1e6, rbw=1e5)`: configures the VNA
window `(center=centerfreq, span=0.1 MHz, rbw=100 kHz)`, acquires
`freqs, trace`, computes `amps = abs(trace)**2`,
`idx = argmin(abs(freqs - centerfreq/1e9))`, and returns the dictionary
`{'depth': amps[idx], 'Frequency': freqs[argmin(amps)]}`: the depth is
read at the sample nearest the requested center frequency, the frequency
at the overall amplitude minimum.  `none` models the `ValueError` numpy
raises from `argmin` on an empty trace. -/
def tone_depth_lin (freqs : List ℚ) (trace : List (ℚ × ℚ)) (centerfreq : ℚ) :
    Option ToneResult :=
  let amps := trace.map fun z => z.1 ^ 2 + z.2 ^ 2
  let dists := freqs.map fun fq => pyAbs (fq - centerfreq / 1e9)
  match npArgmin dists, npArgmin amps with
  | some idx, some jdx => some { depth := amps.getD idx 0, frequency := freqs.getD jdx 0 }
  | some _, none => none
  | none, _ => none

/-- C3 counterexample: on the 3-point trace with amplitudes `[1, 4, 9]`
around `f_c = 5.2 GHz`, `tone_depth_lin` returns `depth = 4` (the
amplitude at the sample nearest 5.2 GHz), while the minimum of
`|sample|**2` over the trace is `1`: the returned depth is not the trace
minimum. -/
theorem C3_counterexample :
    tone_depth_lin [5.1999, 5.2, 5.2001] [(1, 0), (2, 0), (3, 0)] (5.2e9)
      = some { depth := 4, frequency := 5.1999 }
    ∧ npMin ([((1:ℚ), (0:ℚ)), (2, 0), (3, 0)].map fun z => z.1 ^ 2 + z.2 ^ 2)
        = some 1
    ∧ (4 : ℚ) ≠ 1 := by
  refine ⟨?_, by decide, by norm_num⟩
  decide

/-- C3 amended: for every center frequency and (nonempty, well-formed)
acquired trace, `tone_depth_lin` returns the pair whose `depth` is
`|sample|**2` at the sample whose frequency is nearest to
`centerfreq/1e9` (first such index), and whose `frequency` is the
frequency at which `|sample|**2` attains its minimum. -/
theorem C3_amended_depth_at_center (freqs : List ℚ) (trace : List (ℚ × ℚ))
    (centerfreq : ℚ) (hlen : trace.length = freqs.length)
    (hne : freqs ≠ []) :
    ∃ i j, i < freqs.length ∧ j < freqs.length
      ∧ tone_depth_lin freqs trace centerfreq
          = some { depth := (trace.map fun z => z.1 ^ 2 + z.2 ^ 2).getD i 0,
                   frequency := freqs.getD j 0 }
      ∧ (∀ k, k < freqs.length →
          pyAbs (freqs.getD i 0 - centerfreq / 1e9)
            ≤ pyAbs (freqs.getD k 0 - centerfreq / 1e9))
      ∧ (∀ k, k < trace.length →
          (trace.map fun z => z.1 ^ 2 + z.2 ^ 2).getD j 0
            ≤ (trace.map fun z => z.1 ^ 2 + z.2 ^ 2).getD k 0) := by
  have hdne : (freqs.map fun fq => pyAbs (fq - centerfreq / 1e9)) ≠ [] := by
    simpa using hne
  have htne : trace ≠ [] := by
    intro hempty
    rw [hempty] at hlen
    exact hne (List.eq_nil_of_length_eq_zero hlen.symm)
  have hane : (trace.map fun z => z.1 ^ 2 + z.2 ^ 2) ≠ [] := by
    simpa using htne
  obtain ⟨i, hi⟩ := npArgmin_isSome _ hdne
  obtain ⟨j, hj⟩ := npArgmin_isSome _ hane
  obtain ⟨hilen, himin⟩ := npArgmin_spec hi
  obtain ⟨hjlen, hjmin⟩ := npArgmin_spec hj
  rw [List.length_map] at hilen hjlen
  refine ⟨i, j, hilen, by omega, ?_, ?_, ?_⟩
  · simp only [tone_depth_lin, hi, hj]
  · intro k hk
    have h := himin k (by rw [List.length_map]; exact hk)
    rwa [map_getD_ratfun _ _ _ hilen, map_getD_ratfun _ _ _ hk] at h
  · intro k hk
    exact hjmin k (by rw [List.length_map]; exact hk)

/-- Witness for `C3_amended_depth_at_center` at a concrete 3-point
trace. -/
theorem C3_amended_depth_at_center_witness :
    ∃ i j, i < ([5.1999, 5.2, 5.2001] : List ℚ).length
      ∧ j < ([5.1999, 5.2, 5.2001] : List ℚ).length
      ∧ tone_depth_lin [5.1999, 5.2, 5.2001] [(1, 0), (2, 0), (3, 0)] (5.2e9)
          = some { depth := ([((1:ℚ), (0:ℚ)), (2, 0), (3, 0)].map
                      fun z => z.1 ^ 2 + z.2 ^ 2).getD i 0,
                   frequency := ([5.1999, 5.2, 5.2001] : List ℚ).getD j 0 }
      ∧ (∀ k, k < ([5.1999, 5.2, 5.2001] : List ℚ).length →
          pyAbs (([5.1999, 5.2, 5.2001] : List ℚ).getD i 0 - 5.2e9 / 1e9)
            ≤ pyAbs (([5.1999, 5.2, 5.2001] : List ℚ).getD k 0 - 5.2e9 / 1e9))
      ∧ (∀ k, k < ([((1:ℚ), (0:ℚ)), (2, 0), (3, 0)] : List (ℚ × ℚ)).length →
          ([((1:ℚ), (0:ℚ)), (2, 0), (3, 0)].map fun z => z.1 ^ 2 + z.2 ^ 2).getD j 0
            ≤ ([((1:ℚ), (0:ℚ)), (2, 0), (3, 0)].map fun z => z.1 ^ 2 + z.2 ^ 2).getD k 0) :=
  C3_amended_depth_at_center [5.1999, 5.2, 5.2001] [(1, 0), (2, 0), (3, 0)]
    (5.2e9) (by decide) (by decide)

/-! ### Session VNA-state restoration (claim C1)

`fc_tune.py`, `fine_tune_nm` (lines 48-166).  The functions
`netw.setoutrange` and `netw.setbackrange` live in the module `meas_vna`,
which is not under `src/`; their state effect is modelled from the spec
(spec 4.1: `park()`/`unpark(saved)` move the VNA to an out-of-band
parking configuration and restore the previous one). -/

/-- The VNA settings named by the session invariant. -/
structure VNASettings where
  center : ℚ
  span : ℚ
  rbw : ℚ
  power : ℚ
deriving Repr, DecidableEq

/-- A single VNA mutation performed during the session (`vna.set_span`,
`set_vna`, etc.). -/
inductive VNAOp where
  | setCenter (v : ℚ)
  | setSpan (v : ℚ)
  | setBw (v : ℚ)
  | setPower (v : ℚ)
deriving Repr, DecidableEq

def applyOp (s : VNASettings) : VNAOp → VNASettings
  | .setCenter v => { s with center := v }
  | .setSpan v => { s with span := v }
  | .setBw v => { s with rbw := v }
  | .setPower v => { s with power := v }

def applyOps (s : VNASettings) (ops : List VNAOp) : VNASettings :=
  ops.foldl applyOp s

/-- Modelled from the spec: `netw.setbackrange(settings)` (module
`meas_vna`, not under `src/`) restores the saved center/span/rbw/power,
overwriting whatever the session left on the instrument. -/
def setbackrange (saved : VNASettings) (_current : VNASettings) : VNASettings :=
  saved

/-- How the `minimize` call inside the `try` block ends. -/
inductive NMOutcome where
  /-- `minimize` returned (successful convergence or iteration cap). -/
  | success
  /-- the `'Termination!!!'` exception: caught and swallowed. -/
  | termination
  /-- any other exception: re-raised by the bare `raise` (line 160). -/
  | raisedError
deriving Repr, DecidableEq

/-- VNA settings observed immediately after `fine_tune_nm` returns or
re-raises.  `pre` is the state at session entry; `parkOps` is the
spec-modelled out-of-band parking mutation of `netw.setoutrange()`
(line 49); `midOps` are the mutations performed by `f`/`callback` up to
the end of the `minimize` call.  On the two non-raising outcomes the code
runs `netw.setbackrange(settings); vna.set_centerfreq(fr)` (lines
163-164); on a re-raised exception it runs neither (no `finally`
block). -/
def fineTuneFinalVNA (pre : VNASettings) (parkOps midOps : List VNAOp)
    (fr : ℚ) (outcome : NMOutcome) : VNASettings :=
  let mid := applyOps (applyOps pre parkOps) midOps
  match outcome with
  | .raisedError => mid
  | _ => { setbackrange pre mid with center := fr }

/-- C1 counterexample: a session entered with center 5 GHz, span 200 MHz
that tunes to `fr = 5.2 GHz`.  On the success path the observed center
afterwards is `fr`, not the pre-session center; on the path of a
re-raised exception the span stays at the optimizer's last setting
(30 MHz here), not the pre-session span. -/
theorem C1_counterexample :
    (fineTuneFinalVNA ⟨5e9, 2e8, 5e4, 0⟩ [VNAOp.setSpan 1e9] [VNAOp.setSpan 3e7]
        (5.2e9) NMOutcome.success).center ≠ (5e9 : ℚ)
    ∧ (fineTuneFinalVNA ⟨5e9, 2e8, 5e4, 0⟩ [VNAOp.setSpan 1e9] [VNAOp.setSpan 3e7]
        (5.2e9) NMOutcome.raisedError).span ≠ (2e8 : ℚ) := by
  constructor <;> decide

/-- C1 amended: on the success and depth-termination exit paths the span,
rbw and power observed after the session equal the values captured at
entry while the center is re-set to the target `fr`; on any other
exception the session re-raises without restoring, leaving the VNA in
the state the optimizer last set. -/
theorem C1_amended_restore (pre : VNASettings) (parkOps midOps : List VNAOp)
    (fr : ℚ) (outcome : NMOutcome) (h : outcome ≠ NMOutcome.raisedError) :
    (fineTuneFinalVNA pre parkOps midOps fr outcome).span = pre.span
    ∧ (fineTuneFinalVNA pre parkOps midOps fr outcome).rbw = pre.rbw
    ∧ (fineTuneFinalVNA pre parkOps midOps fr outcome).power = pre.power
    ∧ (fineTuneFinalVNA pre parkOps midOps fr outcome).center = fr
    ∧ fineTuneFinalVNA pre parkOps midOps fr NMOutcome.raisedError
        = applyOps (applyOps pre parkOps) midOps := by
  cases outcome with
  | success => exact ⟨rfl, rfl, rfl, rfl, rfl⟩
  | termination => exact ⟨rfl, rfl, rfl, rfl, rfl⟩
  | raisedError => exact absurd rfl h

/-- Witness for `C1_amended_restore` at the concrete session of the
counterexample's pre-state, on the termination (success) path. -/
theorem C1_amended_restore_witness :
    (fineTuneFinalVNA ⟨5e9, 2e8, 5e4, 0⟩ [VNAOp.setSpan 1e9] [VNAOp.setSpan 3e7]
        (5.2e9) NMOutcome.termination).span = (⟨5e9, 2e8, 5e4, 0⟩ : VNASettings).span
    ∧ (fineTuneFinalVNA ⟨5e9, 2e8, 5e4, 0⟩ [VNAOp.setSpan 1e9] [VNAOp.setSpan 3e7]
        (5.2e9) NMOutcome.termination).rbw = (⟨5e9, 2e8, 5e4, 0⟩ : VNASettings).rbw
    ∧ (fineTuneFinalVNA ⟨5e9, 2e8, 5e4, 0⟩ [VNAOp.setSpan 1e9] [VNAOp.setSpan 3e7]
        (5.2e9) NMOutcome.termination).power = (⟨5e9, 2e8, 5e4, 0⟩ : VNASettings).power
    ∧ (fineTuneFinalVNA ⟨5e9, 2e8, 5e4, 0⟩ [VNAOp.setSpan 1e9] [VNAOp.setSpan 3e7]
        (5.2e9) NMOutcome.termination).center = (5.2e9 : ℚ)
    ∧ fineTuneFinalVNA ⟨5e9, 2e8, 5e4, 0⟩ [VNAOp.setSpan 1e9] [VNAOp.setSpan 3e7]
        (5.2e9) NMOutcome.raisedError
        = applyOps (applyOps ⟨5e9, 2e8, 5e4, 0⟩ [VNAOp.setSpan 1e9]) [VNAOp.setSpan 3e7] :=
  C1_amended_restore ⟨5e9, 2e8, 5e4, 0⟩ [VNAOp.setSpan 1e9] [VNAOp.setSpan 3e7]
    (5.2e9) NMOutcome.termination (by decide)

/-! ### Zaber binary protocol (claim C9)

`zaber/serial/binarycommand.py` (`BinaryCommand.encode`, lines 60-73) and
`zaber/serial/binaryreply.py` (`BinaryReply.__init__`, lines 41-55).
Frames are byte lists (each entry < 256).  Python's bitmask expressions
on the 32-bit value are written out as `emod`/division arithmetic, which
agrees with two's-complement `&`, `|`, `>>` on the value ranges
produced by `struct.unpack("<2Bl", ...)` (noted case by case below). -/

/-- The four little-endian bytes of `struct.pack("<l", data)`
(two's-complement 32-bit; `struct` itself requires
`-2**31 <= data < 2**31`). -/
def packLongLE (data : ℤ) : List ℕ :=
  let u := (data % 4294967296).toNat
  [u % 256, u / 256 % 256, u / 65536 % 256, u / 16777216 % 256]

/-- `BinaryCommand.encode`: `struct.pack("<2Bl", device, command, data)`,
and with a message ID the sixth byte is replaced:
`packed[:5] + struct.pack("B", message_id)`. -/
def binaryCommandEncode (device command : ℕ) (data : ℤ) (messageId : Option ℕ) :
    List ℕ :=
  let packed := device :: command :: packLongLE data
  match messageId with
  | none => packed
  | some m => packed.take 5 ++ [m]

/-- The parsed fields of a binary reply. -/
structure BinaryReply where
  device_number : ℕ
  command_number : ℕ
  data : ℤ
  message_id : Option ℤ
deriving Repr, DecidableEq

/-- `BinaryReply.__init__` on a 6-byte frame:
`struct.unpack("<2Bl", reply)` and, when `message_id` is requested,
`message_id = (data & 0xFF000000) >> 24`, `data = data & 0x00FFFFFF`,
then sign extension `data = (data | 0xFF000000) - (1 << 32)` when bit 23
is set.  For the 32-bit `data` value: `x & 0x00FFFFFF = x.emod 2^24` (an
identity of two's-complement arithmetic), `(x & 0xFF000000) >> 24 =
(x.emod 2^32) / 2^24` for `x` in `[-2^31, 2^31)`, and for
`l ∈ [2^23, 2^24)` one has `(l | 0xFF000000) - 2^32 = l - 2^24`. -/
def binaryReplyOfBytes (frame : List ℕ) (useMessageId : Bool) : BinaryReply :=
  let b0 := frame.getD 0 0
  let b1 := frame.getD 1 0
  let b2 := frame.getD 2 0
  let b3 := frame.getD 3 0
  let b4 := frame.getD 4 0
  let b5 := frame.getD 5 0
  let raw : ℤ := (b2 : ℤ) + 256 * b3 + 65536 * b4 + 16777216 * b5
  let data32 : ℤ := if raw < 2147483648 then raw else raw - 4294967296
  match useMessageId with
  | true =>
    let mid := (data32 % 4294967296) / 16777216
    let low := data32 % 16777216
    let data' := if 8388608 ≤ low then low - 16777216 else low
    { device_number := b0, command_number := b1, data := data', message_id := some mid }
  | false =>
    { device_number := b0, command_number := b1, data := data32, message_id := none }

/-- C9: for every device and command byte, message id `m ∈ [0, 255]` and
data `d` in the signed 24-bit range `[-2^23, 2^23 - 1]`, parsing the
6-byte frame of `BinaryCommand(device, command, d, m).encode()` with
`BinaryReply(frame, message_id=True)` recovers `message_id = m` and
`data = d` (the top byte carries the message id; the remaining 24 data
bits are sign-extended on read). -/
theorem C9_binary_message_id_roundtrip (device command m : ℕ) (d : ℤ)
    (hdev : device ≤ 255) (hcmd : command ≤ 255) (hm : m ≤ 255)
    (hd1 : -8388608 ≤ d) (hd2 : d ≤ 8388607) :
    (binaryReplyOfBytes (binaryCommandEncode device command d (some m)) true).message_id
        = some (m : ℤ)
    ∧ (binaryReplyOfBytes (binaryCommandEncode device command d (some m)) true).data = d
    ∧ (binaryReplyOfBytes (binaryCommandEncode device command d (some m)) true).device_number
        = device
    ∧ (binaryReplyOfBytes (binaryCommandEncode device command d (some m)) true).command_number
        = command := by
  simp only [binaryCommandEncode, packLongLE, binaryReplyOfBytes, List.take,
    List.cons_append, List.nil_append, List.getD_cons_zero, List.getD_cons_succ]
  refine ⟨?_, ?_, trivial, trivial⟩ <;>
  · rcases le_or_lt 0 d with hd | hd
    · rw [show d % 4294967296 = d from by omega]
      try rw [Option.some_inj]
      split_ifs <;> omega
    · rw [show d % 4294967296 = d + 4294967296 from by omega]
      try rw [Option.some_inj]
      split_ifs <;> omega

/-- Witness for `C9_binary_message_id_roundtrip` at device 1, command 20
(`move_absolute`), message id 5, data −12345. -/
theorem C9_binary_message_id_roundtrip_witness :
    (binaryReplyOfBytes (binaryCommandEncode 1 20 (-12345) (some 5)) true).message_id
        = some (5 : ℤ)
    ∧ (binaryReplyOfBytes (binaryCommandEncode 1 20 (-12345) (some 5)) true).data = -12345
    ∧ (binaryReplyOfBytes (binaryCommandEncode 1 20 (-12345) (some 5)) true).device_number = 1
    ∧ (binaryReplyOfBytes (binaryCommandEncode 1 20 (-12345) (some 5)) true).command_number
        = 20 :=
  C9_binary_message_id_roundtrip 1 20 5 (-12345) (by norm_num) (by norm_num)
    (by norm_num) (by norm_num) (by norm_num)

/-! ### Zaber ASCII protocol (claim C8)

`zaber/serial/asciireply.py`: `AsciiReply.__init__` (lines 45-141) parses
a reply string, `AsciiReply.encode` (lines 143-205) rebuilds it.  Strings
are embedded as `List Char`.  The `re.match` calls are embedded as
deterministic maximal-munch token scanners: every quantifier in the
patterns (`\d+`, `\S+` followed by `\s`, `(.+)`) is insensitive to
backtracking except the optional message-id group `(?:(\d+)\s)?`, which
is tried greedily and undone when the remainder of the pattern fails,
exactly as below. -/

/-- Python regex `\s` on the ASCII range (re module whitespace class). -/
def isPySpace (c : Char) : Bool :=
  c = ' ' || c = '\t' || c = '\n' || c = '\r' || c = '\x0b' || c = '\x0c'

/-- Python regex `\d`. -/
def isDigitCh (c : Char) : Bool := 48 ≤ c.toNat && c.toNat ≤ 57

/-- `int()` of a digit string. -/
def digitsToNat (ds : List Char) : ℕ :=
  ds.foldl (fun a c => 10 * a + (c.toNat - 48)) 0

/-- `str.strip("\r\n")`: remove leading and trailing CR/LF characters. -/
def stripCRLF (s : List Char) : List Char :=
  ((s.dropWhile fun c => c = '\r' || c = '\n').reverse.dropWhile
    fun c => c = '\r' || c = '\n').reverse

/-- The LRC value of lines 70-78: `((sum(bytes) & 0xFF) ^ 0xFF) + 1`. -/
def lrcValue (body : List Char) : ℕ :=
  (((body.foldl (fun a c => a + c.toNat) 0) % 256) ^^^ 255) + 1

/-- Uppercase hex digit. -/
def hexDigitCh (n : ℕ) : Char :=
  if n < 10 then Char.ofNat (48 + n) else Char.ofNat (55 + n)

/-- `"{:02X}".format(v)[-2:]` for the LRC value `v ∈ [1, 256]`. -/
def lrcChecksum (body : List Char) : List Char :=
  let v := lrcValue body
  [hexDigitCh (v / 16 % 16), hexDigitCh (v % 16)]

/-- Decimal rendering (most significant digit first); `fuel ≥ n+1`. -/
def natToCharsAux : ℕ → ℕ → List Char
  | 0, _ => []
  | fuel + 1, n =>
    if n < 10 then [Char.ofNat (48 + n)]
    else natToCharsAux fuel (n / 10) ++ [Char.ofNat (48 + n % 10)]

/-- `"{:d}".format(n)` for a natural number. -/
def natToChars (n : ℕ) : List Char := natToCharsAux (n + 1) n

/-- `"{:02d}".format(n)` for a natural number. -/
def pad02 (n : ℕ) : List Char :=
  if n < 10 then '0' :: natToChars n else natToChars n

/-- Match `(\d+)\s` by maximal munch: a nonempty digit run followed by
one whitespace character; returns the numeric value and the remainder. -/
def pDigitsSp (s : List Char) : Option (ℕ × List Char) :=
  match s.takeWhile isDigitCh, s.dropWhile isDigitCh with
  | [], _ => none
  | _, [] => none
  | t, c :: r => if isPySpace c then some (digitsToNat t, r) else none

/-- Match `(\S+)\s` by maximal munch: a nonempty non-whitespace run
followed by one whitespace character (the character ending the run is
necessarily whitespace). -/
def pTokSp (s : List Char) : Option (List Char × List Char) :=
  match s.takeWhile (fun c => !isPySpace c), s.dropWhile (fun c => !isPySpace c) with
  | [], _ => none
  | _, [] => none
  | t, _ :: r => some (t, r)

/-- Match the tail `(\S+)\s(\S+)\s(\S+)\s(.+)` of the `'@'` pattern:
flag, status, warning flag, then the data, which `.` extends to the end
of the string or the first `'\n'` and which must be nonempty. -/
def pAtTail (rest : List Char) :
    Option (List Char × List Char × List Char × List Char) := do
  let (flag, r1) ← pTokSp rest
  let (status, r2) ← pTokSp r1
  let (warn, r3) ← pTokSp r2
  let data := r3.takeWhile fun c => c ≠ '\n'
  if data = [] then none else some (flag, status, warn, data)

/-- Parsed attributes of an `AsciiReply` (fields left `None` by
`__init__` for the given message type stay `none`). -/
structure AsciiReply where
  message_type : Char
  device_address : ℕ
  axis_number : ℕ
  message_id : Option ℕ
  reply_flag : Option (List Char)
  device_status : Option (List Char)
  warning_flag : Option (List Char)
  data : List Char
  checksum : Option (List Char)
deriving Repr, DecidableEq

/-- Parse the checksum-stripped body of a reply by message type:
`'@'` against `@(\d+)\s(\d+)\s(?:(\d+)\s)?(\S+)\s(\S+)\s(\S+)\s(.+)`,
`'#'` against `#(\d+)\s(\d+)\s(?:(\d+)\s)?(.*)`,
`'!'` against `!(\d+)\s(\d+)\s(\S+)\s(\S+)(?:\s(.*))?`. -/
def parseBody (body : List Char) : Option AsciiReply :=
  match body with
  | '@' :: rest => do
    let (dev, r1) ← pDigitsSp rest
    let (ax, r2) ← pDigitsSp r1
    match (do
        let (mid, r3) ← pDigitsSp r2
        let (flag, status, warn, data) ← pAtTail r3
        pure (some mid, flag, status, warn, data) :
          Option (Option ℕ × List Char × List Char × List Char × List Char)) with
    | some (mid, flag, status, warn, data) =>
      pure { message_type := '@', device_address := dev, axis_number := ax,
             message_id := mid, reply_flag := some flag,
             device_status := some status, warning_flag := some warn,
             data := data, checksum := none }
    | none => do
      let (flag, status, warn, data) ← pAtTail r2
      pure { message_type := '@', device_address := dev, axis_number := ax,
             message_id := none, reply_flag := some flag,
             device_status := some status, warning_flag := some warn,
             data := data, checksum := none }
  | '#' :: rest => do
    let (dev, r1) ← pDigitsSp rest
    let (ax, r2) ← pDigitsSp r1
    match pDigitsSp r2 with
    | some (mid, r3) =>
      pure { message_type := '#', device_address := dev, axis_number := ax,
             message_id := some mid, reply_flag := none, device_status := none,
             warning_flag := none, data := r3.takeWhile (fun c => c ≠ '\n'),
             checksum := none }
    | none =>
      pure { message_type := '#', device_address := dev, axis_number := ax,
             message_id := none, reply_flag := none, device_status := none,
             warning_flag := none, data := r2.takeWhile (fun c => c ≠ '\n'),
             checksum := none }
  | '!' :: rest => do
    let (dev, r1) ← pDigitsSp rest
    let (ax, r2) ← pDigitsSp r1
    let (status, r3) ← pTokSp r2
    let warn := r3.takeWhile fun c => !isPySpace c
    if warn = [] then none
    else
      match r3.dropWhile (fun c => !isPySpace c) with
      | [] =>
        pure { message_type := '!', device_address := dev, axis_number := ax,
               message_id := none, reply_flag := none, device_status := some status,
               warning_flag := some warn, data := [], checksum := none }
      | _ :: r4 =>
        pure { message_type := '!', device_address := dev, axis_number := ax,
               message_id := none, reply_flag := none, device_status := some status,
               warning_flag := some warn, data := r4.takeWhile (fun c => c ≠ '\n'),
               checksum := none }
  | _ => none

/-- `AsciiReply.__init__`: strip CR/LF, reject strings shorter than 5,
split and verify an optional `:XX` checksum suffix (LRC over everything
after the leading type character), then parse the body. -/
def asciiReplyParse (s : List Char) : Option AsciiReply :=
  let t := stripCRLF s
  if t.length < 5 then none
  else if t.getD (t.length - 3) ' ' = ':' then
    let chk := t.drop (t.length - 2)
    let body := t.take (t.length - 3)
    if lrcChecksum (body.drop 1) = chk then
      (parseBody body).map fun r => { r with checksum := some chk }
    else none
  else parseBody t

/-- `AsciiReply.encode`. -/
def asciiReplyEncode (r : AsciiReply) : List Char :=
  let core :=
    match r.message_type, r.message_id with
    | '@', none =>
      '@' :: pad02 r.device_address ++ [' '] ++ natToChars r.axis_number ++ [' ']
        ++ r.reply_flag.getD [] ++ [' '] ++ r.device_status.getD [] ++ [' ']
        ++ r.warning_flag.getD [] ++ [' '] ++ r.data
    | '@', some m =>
      '@' :: pad02 r.device_address ++ [' '] ++ natToChars r.axis_number ++ [' ']
        ++ pad02 m ++ [' ']
        ++ r.reply_flag.getD [] ++ [' '] ++ r.device_status.getD [] ++ [' ']
        ++ r.warning_flag.getD [] ++ [' '] ++ r.data
    | '#', none =>
      '#' :: pad02 r.device_address ++ [' '] ++ natToChars r.axis_number ++ [' ']
        ++ r.data
    | '#', some m =>
      '#' :: pad02 r.device_address ++ [' '] ++ natToChars r.axis_number ++ [' ']
        ++ pad02 m ++ [' '] ++ r.data
    | '!', none =>
      '!' :: pad02 r.device_address ++ [' '] ++ natToChars r.axis_number ++ [' ']
        ++ r.device_status.getD [] ++ [' '] ++ r.warning_flag.getD []
    | '!', some m =>
      '!' :: pad02 r.device_address ++ [' '] ++ natToChars r.axis_number ++ [' ']
        ++ pad02 m ++ [' ']
        ++ r.device_status.getD [] ++ [' '] ++ r.warning_flag.getD []
    | _, _ => []
  match r.checksum with
  | some chk => core ++ ':' :: chk ++ ['\r', '\n']
  | none => core ++ ['\r', '\n']

/-- C8 counterexample: the claim's concrete string
`"@01 1 02 OK IDLE -- 12345:A5\r\n"` does not parse: the LRC of
`"01 1 02 OK IDLE -- 12345"` is `"3B"`, not `"A5"`, so the constructor
raises `ValueError` (checksum incorrect). -/
theorem C8_counterexample :
    asciiReplyParse ("@01 1 02 OK IDLE -- 12345:A5\r\n".toList) = none
    ∧ lrcChecksum ("01 1 02 OK IDLE -- 12345".toList) = ['3', 'B'] := by
  constructor <;> decide

/-! #### Canonical `'@'` replies and the round-trip theorem -/

/-- The fields of a canonical `'@'`-type reply. -/
structure CanonAtReply where
  dev : ℕ
  axis : ℕ
  mid : Option ℕ
  flag : List Char
  status : List Char
  warn : List Char
  data : List Char
  useChk : Bool
deriving Repr, DecidableEq

/-- The body (before the optional checksum suffix and the trailing CRLF)
of a canonical reply, in the spec 6 framing
`"@<dev> <axis> [<msg_id>] OK|RJ BUSY|IDLE <warn> <data>"`. -/
def canonCore (c : CanonAtReply) : List Char :=
  '@' :: (pad02 c.dev ++ ' ' :: (natToChars c.axis ++ ' ' ::
    ((match c.mid with | some m => pad02 m ++ [' '] | none => []) ++
      (c.flag ++ ' ' :: (c.status ++ ' ' :: (c.warn ++ ' ' :: c.data))))))

/-- The full canonical wire string, with LRC checksum suffix when
`useChk` is set. -/
def canonRender (c : CanonAtReply) : List Char :=
  if c.useChk then canonCore c ++ ':' :: lrcChecksum ((canonCore c).drop 1) ++ ['\r', '\n']
  else canonCore c ++ ['\r', '\n']

/-- Canonical fields: two-digit device address in `[1, 99]`, one-digit
axis, two-digit message id when present, `OK`/`RJ` flag, `BUSY`/`IDLE`
status, a two-character non-whitespace warning flag without `':'`, and
nonempty data without CR, LF or `':'`. -/
def canonValid (c : CanonAtReply) : Prop :=
  1 ≤ c.dev ∧ c.dev ≤ 99 ∧ c.axis ≤ 9
  ∧ (∀ m ∈ c.mid, m ≤ 99)
  ∧ (c.flag = ['O', 'K'] ∨ c.flag = ['R', 'J'])
  ∧ (c.status = ['B', 'U', 'S', 'Y'] ∨ c.status = ['I', 'D', 'L', 'E'])
  ∧ (∃ w1 w2, c.warn = [w1, w2] ∧ isPySpace w1 = false ∧ isPySpace w2 = false
      ∧ w1 ≠ ':' ∧ w2 ≠ ':')
  ∧ c.data ≠ []
  ∧ (∀ ch ∈ c.data, ch ≠ '\r' ∧ ch ≠ '\n' ∧ ch ≠ ':')

/-- Scanning an all-`p` run followed by a failing character. -/
theorem takeWhile_dropWhile_append (p : Char → Bool) (l₁ : List Char) (c : Char)
    (l₂ : List Char) (h₁ : ∀ x ∈ l₁, p x = true) (hc : p c = false) :
    (l₁ ++ c :: l₂).takeWhile p = l₁ ∧ (l₁ ++ c :: l₂).dropWhile p = c :: l₂ := by
  induction l₁ with
  | nil => simp [List.takeWhile_cons, List.dropWhile_cons, hc]
  | cons x rest ih =>
    have hx : p x = true := h₁ x (by simp)
    have := ih fun y hy => h₁ y (by simp [hy])
    simp [List.takeWhile_cons, List.dropWhile_cons, hx, this.1, this.2]

/-- A list none of whose characters fail `p` scans to itself. -/
theorem takeWhile_eq_self_of_all (p : Char → Bool) (l : List Char)
    (h : ∀ x ∈ l, p x = true) : l.takeWhile p = l := by
  induction l with
  | nil => rfl
  | cons x rest ih =>
    simp [List.takeWhile_cons, h x (by simp), ih fun y hy => h y (by simp [hy])]

theorem digit_char_facts :
    ∀ d < 10, isDigitCh (Char.ofNat (48 + d)) = true
      ∧ (Char.ofNat (48 + d)).toNat = 48 + d
      ∧ isPySpace (Char.ofNat (48 + d)) = false := by decide

/-- Two-character decimal form of `"{:02d}"` for values up to 99. -/
theorem pad02_eq (n : ℕ) (h : n ≤ 99) :
    pad02 n = [Char.ofNat (48 + n / 10), Char.ofNat (48 + n % 10)] := by
  rw [pad02, natToChars]
  by_cases h10 : n < 10
  · rw [if_pos h10, natToCharsAux, if_pos h10]
    have h0 : n / 10 = 0 := by omega
    rw [h0, Nat.mod_eq_of_lt h10, show Char.ofNat (48 + 0) = '0' from by decide]
  · rw [if_neg h10]
    obtain ⟨k, rfl⟩ : ∃ k, n = k + 1 := ⟨n - 1, by omega⟩
    rw [natToCharsAux, if_neg h10]
    have h1 : (k + 1) / 10 < 10 := by omega
    obtain ⟨j, hj⟩ : ∃ j, k = j + 1 := ⟨k - 1, by omega⟩
    rw [hj, natToCharsAux, if_pos (by omega : (j + 1 + 1) / 10 < 10)]
    rw [← hj]
    rfl

theorem pad02_all_digits (n : ℕ) (h : n ≤ 99) :
    ∀ c ∈ pad02 n, isDigitCh c = true := by
  rw [pad02_eq n h]
  intro c hc
  rcases List.mem_cons.mp hc with rfl | hc
  · exact (digit_char_facts (n / 10) (by omega)).1
  · rcases List.mem_cons.mp hc with rfl | hc
    · exact (digit_char_facts (n % 10) (by omega)).1
    · simp at hc

theorem digitsToNat_pad02 (n : ℕ) (h : n ≤ 99) :
    digitsToNat (pad02 n) = n := by
  rw [pad02_eq n h, digitsToNat]
  simp only [List.foldl_cons, List.foldl_nil]
  rw [(digit_char_facts (n / 10) (by omega)).2.1,
    (digit_char_facts (n % 10) (by omega)).2.1]
  omega

theorem natToChars_single (n : ℕ) (h : n ≤ 9) :
    natToChars n = [Char.ofNat (48 + n)] := by
  rw [natToChars, natToCharsAux, if_pos (by omega : n < 10)]

/-- `(\d+)\s` on a canonical digit run. -/
theorem pDigitsSp_run (t rest : List Char) (hne : t ≠ [])
    (hdig : ∀ c ∈ t, isDigitCh c = true) :
    pDigitsSp (t ++ ' ' :: rest) = some (digitsToNat t, rest) := by
  obtain ⟨h1, h2⟩ := takeWhile_dropWhile_append isDigitCh t ' ' rest hdig (by decide)
  rw [pDigitsSp]
  cases t with
  | nil => exact absurd rfl hne
  | cons x xs =>
    rw [h1, h2]
    rfl

/-- `(\d+)\s` fails when the first character is not a digit. -/
theorem pDigitsSp_nondigit (s : List Char) (c : Char) (rest : List Char)
    (hs : s = c :: rest) (hc : isDigitCh c = false) : pDigitsSp s = none := by
  subst hs
  rw [pDigitsSp]
  simp [List.takeWhile_cons, hc]

/-- `(\S+)\s` on a canonical token. -/
theorem pTokSp_run (t rest : List Char) (hne : t ≠ [])
    (htok : ∀ c ∈ t, isPySpace c = false) :
    pTokSp (t ++ ' ' :: rest) = some (t, rest) := by
  obtain ⟨h1, h2⟩ := takeWhile_dropWhile_append (fun c => !isPySpace c) t ' ' rest
    (fun x hx => by simp [htok x hx]) (by decide)
  rw [pTokSp]
  cases t with
  | nil => exact absurd rfl hne
  | cons x xs =>
    rw [h1, h2]

/-- The `'@'` tail on canonical flag/status/warn/data fields. -/
theorem pAtTail_canonical (flag status warn data : List Char)
    (hflag : flag ≠ [] ∧ ∀ c ∈ flag, isPySpace c = false)
    (hstatus : status ≠ [] ∧ ∀ c ∈ status, isPySpace c = false)
    (hwarn : warn ≠ [] ∧ ∀ c ∈ warn, isPySpace c = false)
    (hdata : data ≠ []) (hdata2 : ∀ c ∈ data, c ≠ '\n') :
    pAtTail (flag ++ ' ' :: (status ++ ' ' :: (warn ++ ' ' :: data)))
      = some (flag, status, warn, data) := by
  rw [pAtTail]
  rw [pTokSp_run flag _ hflag.1 hflag.2]
  simp only [Option.bind_eq_bind, Option.some_bind]
  rw [pTokSp_run status _ hstatus.1 hstatus.2]
  simp only [Option.some_bind]
  rw [pTokSp_run warn _ hwarn.1 hwarn.2]
  simp only [Option.some_bind]
  rw [takeWhile_eq_self_of_all _ data (fun x hx => by simp [hdata2 x hx])]
  simp [hdata]

/-- `int()` of the single-digit rendering. -/
theorem digitsToNat_single (n : ℕ) (h : n ≤ 9) :
    digitsToNat (natToChars n) = n := by
  rw [natToChars_single n h, digitsToNat]
  simp only [List.foldl_cons, List.foldl_nil]
  rw [(digit_char_facts n (by omega)).2.1]
  omega

theorem natToChars_single_digits (n : ℕ) (h : n ≤ 9) :
    ∀ c ∈ natToChars n, isDigitCh c = true := by
  rw [natToChars_single n h]
  intro c hc
  rcases List.mem_cons.mp hc with rfl | hc
  · exact (digit_char_facts n (by omega)).1
  · simp at hc

/-- The parsed reply a canonical `'@'` string yields (with the given
checksum attribute). -/
def canonParsed (c : CanonAtReply) (chk : Option (List Char)) : AsciiReply :=
  { message_type := '@', device_address := c.dev, axis_number := c.axis,
    message_id := c.mid, reply_flag := some c.flag, device_status := some c.status,
    warning_flag := some c.warn, data := c.data, checksum := chk }

/-- The body of a canonical reply parses to its fields. -/
theorem parseBody_canonCore (c : CanonAtReply) (h : canonValid c) :
    parseBody (canonCore c) = some (canonParsed c none) := by
  obtain ⟨hdev1, hdev2, hax, hmid, hflag, hstatus,
    ⟨w1, w2, hwarn, hw1, hw2, hw1c, hw2c⟩, hdne, hdchars⟩ := h
  have hflag_ne : c.flag ≠ [] := by rcases hflag with h | h <;> simp [h]
  have hflag_sp : ∀ ch ∈ c.flag, isPySpace ch = false := by
    rcases hflag with h | h <;> (rw [h]; decide)
  obtain ⟨fc, frest, hfc, hfcd⟩ :
      ∃ fc frest, c.flag = fc :: frest ∧ isDigitCh fc = false := by
    rcases hflag with h | h <;> exact ⟨_, _, h, by decide⟩
  have hstatus_ne : c.status ≠ [] := by rcases hstatus with h | h <;> simp [h]
  have hstatus_sp : ∀ ch ∈ c.status, isPySpace ch = false := by
    rcases hstatus with h | h <;> (rw [h]; decide)
  have hwarn_ne : c.warn ≠ [] := by simp [hwarn]
  have hwarn_sp : ∀ ch ∈ c.warn, isPySpace ch = false := by
    rw [hwarn]
    intro ch hch
    rcases List.mem_cons.mp hch with rfl | hch
    · exact hw1
    · rcases List.mem_cons.mp hch with rfl | hch
      · exact hw2
      · simp at hch
  have hdata_nl : ∀ ch ∈ c.data, ch ≠ '\n' := fun ch hch => (hdchars ch hch).2.1
  have hpad_ne : pad02 c.dev ≠ [] := by rw [pad02_eq c.dev hdev2]; simp
  have hax_ne : natToChars c.axis ≠ [] := by rw [natToChars_single c.axis hax]; simp
  have htail := pAtTail_canonical c.flag c.status c.warn c.data
    ⟨hflag_ne, hflag_sp⟩ ⟨hstatus_ne, hstatus_sp⟩ ⟨hwarn_ne, hwarn_sp⟩ hdne hdata_nl
  rw [canonCore, parseBody]
  rw [pDigitsSp_run (pad02 c.dev) _ hpad_ne (pad02_all_digits c.dev hdev2)]
  simp only [Option.bind_eq_bind, Option.some_bind]
  rw [pDigitsSp_run (natToChars c.axis) _ hax_ne (natToChars_single_digits c.axis hax)]
  simp only [Option.some_bind]
  cases hm : c.mid with
  | none =>
    simp only [List.nil_append]
    rw [pDigitsSp_nondigit _ fc (frest ++ ' ' :: (c.status ++ ' ' :: (c.warn ++ ' ' :: c.data)))
      (by rw [hfc]; rfl) hfcd]
    simp only [Option.none_bind]
    rw [htail]
    simp only [Option.some_bind]
    rw [digitsToNat_pad02 c.dev hdev2, digitsToNat_single c.axis hax, canonParsed, hm]
    rfl
  | some m =>
    have hm99 : m ≤ 99 := hmid m (by rw [hm]; rfl)
    have hmid_ne : pad02 m ≠ [] := by rw [pad02_eq m hm99]; simp
    rw [show (pad02 m ++ [' ']) ++ (c.flag ++ ' ' :: (c.status ++ ' ' :: (c.warn ++ ' ' :: c.data)))
        = pad02 m ++ ' ' :: (c.flag ++ ' ' :: (c.status ++ ' ' :: (c.warn ++ ' ' :: c.data)))
      from by simp]
    rw [pDigitsSp_run (pad02 m) _ hmid_ne (pad02_all_digits m hm99)]
    simp only [Option.some_bind]
    rw [htail]
    simp only [Option.some_bind]
    rw [digitsToNat_pad02 c.dev hdev2, digitsToNat_single c.axis hax,
      digitsToNat_pad02 m hm99, canonParsed, hm]
    rfl

/-- Stripping the trailing CRLF of a framed line whose payload neither
starts nor ends with a CR/LF character. -/
theorem stripCRLF_append_crlf (c0 : Char) (u' : List Char)
    (hc0 : (c0 = '\r' || c0 = '\n') = false)
    (hlast : ∀ cl, (c0 :: u').getLast? = some cl → (cl = '\r' || cl = '\n') = false) :
    stripCRLF ((c0 :: u') ++ ['\r', '\n']) = c0 :: u' := by
  rw [stripCRLF]
  have h1 : ((c0 :: u') ++ ['\r', '\n']).dropWhile (fun c => c = '\r' || c = '\n')
      = (c0 :: u') ++ ['\r', '\n'] := by
    rw [List.cons_append, List.dropWhile_cons]
    simp [hc0]
  rw [h1]
  have h2 : ((c0 :: u') ++ ['\r', '\n']).reverse
      = '\n' :: '\r' :: (c0 :: u').reverse := by
    simp
  rw [h2]
  have h3 : ('\n' :: '\r' :: (c0 :: u').reverse).dropWhile
        (fun c => c = '\r' || c = '\n')
      = (c0 :: u').reverse.dropWhile (fun c => c = '\r' || c = '\n') := by
    rw [List.dropWhile_cons, List.dropWhile_cons]
    simp
  rw [h3]
  have h4 : (c0 :: u').reverse.dropWhile (fun c => c = '\r' || c = '\n')
      = (c0 :: u').reverse := by
    cases hv : (c0 :: u').reverse with
    | nil => rfl
    | cons d w =>
      have hd : (c0 :: u').getLast? = some d := by
        rw [List.getLast?_eq_head?_reverse, hv]
        rfl
      rw [List.dropWhile_cons]
      simp [hlast d hd]
  rw [h4, List.reverse_reverse]

/-- Reading an in-range index of a list yields one of its elements. -/
theorem getD_mem_of_lt (l : List Char) :
    ∀ i, i < l.length → ∀ d, l.getD i d ∈ l := by
  induction l with
  | nil => intro i hi; simp at hi
  | cons x rest ih =>
    intro i hi d
    cases i with
    | zero => simp
    | succ j =>
      rw [List.getD_cons_succ]
      exact List.mem_cons_of_mem x (ih j (by simpa using hi) d)

/-- The third-from-last character of a canonical checksum-less body is
never `':'` (it is a data character, the field separator, or the second
warning-flag character). -/
theorem third_last_ne_colon (stem data : List Char) (w1 w2 : Char)
    (hw2 : w2 ≠ ':') (hd : data ≠ []) (hdc : ∀ ch ∈ data, ch ≠ ':') :
    (stem ++ w1 :: w2 :: ' ' :: data).getD
      ((stem ++ w1 :: w2 :: ' ' :: data).length - 3) ' ' ≠ ':' := by
  have hlen : (stem ++ w1 :: w2 :: ' ' :: data).length
      = stem.length + (3 + data.length) := by
    simp [List.length_append]
    omega
  have hne : data.length ≠ 0 := by simpa using hd
  rw [hlen, show stem.length + (3 + data.length) - 3 = stem.length + data.length
    from by omega]
  rw [List.getD_append_right _ _ _ _ (by omega : stem.length ≤ stem.length + data.length),
    show stem.length + data.length - stem.length = data.length from by omega]
  rcases data with _ | ⟨d1, _ | ⟨d2, _ | ⟨d3, rest⟩⟩⟩
  · exact absurd rfl hd
  · simpa using hw2
  · rw [show ([d1, d2] : List Char).length = 2 from rfl, List.getD_cons_succ,
      List.getD_cons_succ, List.getD_cons_zero]
    decide
  · rw [show (d1 :: d2 :: d3 :: rest).length = rest.length + 1 + 1 + 1 from (by
      simp only [List.length_cons])]
    rw [List.getD_cons_succ, List.getD_cons_succ, List.getD_cons_succ]
    have hmem : (d1 :: d2 :: d3 :: rest).getD rest.length ' ' ∈ d1 :: d2 :: d3 :: rest :=
      getD_mem_of_lt _ _ (by simp only [List.length_cons]; omega) _
    exact hdc _ hmem

/-- The character a `getLast?` returns is an element of the list. -/
theorem mem_of_getLast?_eq (l : List Char) (x : Char) (h : l.getLast? = some x) :
    x ∈ l := by
  have hx : x ∈ l.getLast? := by rw [h]; rfl
  obtain ⟨hne, hxl⟩ := List.mem_getLast?_eq_getLast hx
  exact hxl ▸ List.getLast_mem hne

theorem hexDigitCh_not_crlf :
    ∀ k < 16, ((hexDigitCh k = '\r' || hexDigitCh k = '\n') = false) := by decide

/-- Encoding the parsed fields of a canonical reply re-renders its core
framing. -/
theorem asciiReplyEncode_canonParsed (c : CanonAtReply) (chk : Option (List Char)) :
    asciiReplyEncode (canonParsed c chk)
      = (match chk with
         | some k => canonCore c ++ ':' :: (k ++ ['\r', '\n'])
         | none => canonCore c ++ ['\r', '\n']) := by
  cases hm : c.mid with
  | none =>
    cases chk <;>
      simp [asciiReplyEncode, canonParsed, canonCore, hm, List.append_assoc]
  | some m =>
    cases chk <;>
      simp [asciiReplyEncode, canonParsed, canonCore, hm, List.append_assoc]

/-- C8 amended: every canonical `'@'`-type reply string (two-digit device
address in `[1,99]`, one-digit axis, two-digit message id when present,
`OK`/`RJ` flag, `BUSY`/`IDLE` status, two-character warning flag, data
free of CR/LF/colon, and - when present - a checksum matching the LRC
formula) parses successfully into its fields, and `encode` reproduces the
input string exactly.  (The claim's concrete string is canonical only
with checksum `3B`; see the counterexample for `A5`.) -/
theorem C8_amended_canonical_roundtrip (c : CanonAtReply) (h : canonValid c) :
    asciiReplyParse (canonRender c)
      = some (canonParsed c
          (if c.useChk then some (lrcChecksum ((canonCore c).drop 1)) else none))
    ∧ asciiReplyEncode (canonParsed c
          (if c.useChk then some (lrcChecksum ((canonCore c).drop 1)) else none))
      = canonRender c := by
  obtain ⟨hdev1, hdev2, hax, hmid, hflag, hstatus,
    ⟨w1, w2, hwarn, hw1, hw2, hw1c, hw2c⟩, hdne, hdchars⟩ := h
  have hparse := parseBody_canonCore c
    ⟨hdev1, hdev2, hax, hmid, hflag, hstatus,
      ⟨w1, w2, hwarn, hw1, hw2, hw1c, hw2c⟩, hdne, hdchars⟩
  have hpadlen : (pad02 c.dev).length = 2 := by rw [pad02_eq _ hdev2]; rfl
  have haxlen : (natToChars c.axis).length = 1 := by rw [natToChars_single _ hax]; rfl
  have h5 : 5 ≤ (canonCore c).length := by
    rw [canonCore]
    simp only [List.length_cons, List.length_append, hpadlen, haxlen]
    omega
  obtain ⟨ct, hct⟩ : ∃ ct, canonCore c = '@' :: ct := ⟨_, by rw [canonCore]⟩
  obtain ⟨pre, hpre⟩ : ∃ pre, canonCore c = pre ++ c.data := by
    refine ⟨'@' :: (pad02 c.dev ++ ' ' :: (natToChars c.axis ++ ' ' ::
      ((match c.mid with | some m => pad02 m ++ [' '] | none => []) ++
        (c.flag ++ ' ' :: (c.status ++ ' ' :: (c.warn ++ [' '])))))), ?_⟩
    rw [canonCore]
    simp [List.append_assoc]
  obtain ⟨stem, hstem⟩ : ∃ stem, canonCore c = stem ++ w1 :: w2 :: ' ' :: c.data := by
    refine ⟨'@' :: (pad02 c.dev ++ ' ' :: (natToChars c.axis ++ ' ' ::
      ((match c.mid with | some m => pad02 m ++ [' '] | none => []) ++
        (c.flag ++ ' ' :: (c.status ++ [' ']))))), ?_⟩
    rw [canonCore, hwarn]
    simp [List.append_assoc]
  cases hchk : c.useChk with
  | false =>
    have hlastcond : ∀ cl, (canonCore c).getLast? = some cl →
        ((cl = '\r' || cl = '\n') = false) := by
      intro cl hcl
      rw [hpre, List.getLast?_append_of_ne_nil _ hdne] at hcl
      have hclmem := mem_of_getLast?_eq _ _ hcl
      obtain ⟨hr, hn, _⟩ := hdchars cl hclmem
      simp [hr, hn]
    have hstrip : stripCRLF (canonCore c ++ ['\r', '\n']) = canonCore c := by
      rw [hct]
      exact stripCRLF_append_crlf '@' ct (by decide)
        (fun cl hcl => hlastcond cl (by rw [hct]; exact hcl))
    have hthird := third_last_ne_colon stem c.data w1 w2 hw2c hdne
      (fun ch hch => (hdchars ch hch).2.2)
    rw [← hstem] at hthird
    rw [canonRender, hchk, if_neg (by simp)]
    refine ⟨?_, ?_⟩
    · simp only [asciiReplyParse, hstrip]
      rw [if_neg (by omega), if_neg hthird, hparse]
      rfl
    · rw [show (if ((false : Bool) = true) then some (lrcChecksum ((canonCore c).drop 1))
          else none) = (none : Option (List Char)) from rfl,
        asciiReplyEncode_canonParsed]
  | true =>
    set chk := lrcChecksum ((canonCore c).drop 1) with hchkdef
    have hchklen : chk.length = 2 := by
      rw [hchkdef, lrcChecksum]
      rfl
    have hu : canonRender c = ((canonCore c ++ ':' :: chk) ++ ['\r', '\n']) := by
      rw [canonRender, hchk, if_pos rfl]
    have hlastcond : ∀ cl, (canonCore c ++ ':' :: chk).getLast? = some cl →
        ((cl = '\r' || cl = '\n') = false) := by
      intro cl hcl
      rw [List.getLast?_append_of_ne_nil _ (by simp)] at hcl
      have : (':' :: chk).getLast? = some (hexDigitCh (lrcValue ((canonCore c).drop 1) % 16)) := by
        rw [hchkdef, lrcChecksum]
        rfl
      rw [this, Option.some_inj] at hcl
      rw [← hcl]
      exact hexDigitCh_not_crlf _ (Nat.mod_lt _ (by norm_num))
    obtain ⟨ct2, hct2⟩ : ∃ ct2, canonCore c ++ ':' :: chk = '@' :: ct2 :=
      ⟨ct ++ ':' :: chk, by rw [hct]; rfl⟩
    have hstrip : stripCRLF ((canonCore c ++ ':' :: chk) ++ ['\r', '\n'])
        = canonCore c ++ ':' :: chk := by
      rw [hct2]
      exact stripCRLF_append_crlf '@' ct2 (by decide)
        (fun cl hcl => hlastcond cl (by rw [hct2]; exact hcl))
    have hulen : (canonCore c ++ ':' :: chk).length = (canonCore c).length + 3 := by
      simp [List.length_append, hchklen]
    have hidx3 : (canonCore c ++ ':' :: chk).length - 3 = (canonCore c).length := by
      omega
    have hcolon : (canonCore c ++ ':' :: chk).getD
        ((canonCore c ++ ':' :: chk).length - 3) ' ' = ':' := by
      rw [hidx3, List.getD_append_right _ _ _ _ (le_refl _), Nat.sub_self,
        List.getD_cons_zero]
    have hdrop : (canonCore c ++ ':' :: chk).drop
        ((canonCore c ++ ':' :: chk).length - 2) = chk := by
      rw [show (canonCore c ++ ':' :: chk).length - 2 = ((canonCore c) ++ [':']).length
        from by simp [List.length_append, hchklen]]
      rw [show canonCore c ++ ':' :: chk = (canonCore c ++ [':']) ++ chk
        from by simp]
      exact List.drop_left _ _
    have htake : (canonCore c ++ ':' :: chk).take
        ((canonCore c ++ ':' :: chk).length - 3) = canonCore c := by
      rw [hidx3]
      exact List.take_left _ _
    refine ⟨?_, ?_⟩
    · rw [hu]
      simp only [asciiReplyParse, hstrip]
      rw [if_neg (by omega), if_pos hcolon, hdrop, htake]
      rw [if_pos rfl, hparse]
      rfl
    · rw [asciiReplyEncode_canonParsed, hu]
      simp [List.append_assoc]

/-- Witness for `C8_amended_canonical_roundtrip`: the corrected concrete
reply `"@01 1 02 OK IDLE -- 12345:3B\r\n"` (device 1, axis 1, message id
2, `OK`, `IDLE`, `--`, data `12345`, checksum `3B`). -/
theorem C8_amended_canonical_roundtrip_witness :
    (canonRender ⟨1, 1, some 2, ['O', 'K'], ['I', 'D', 'L', 'E'], ['-', '-'],
        ['1', '2', '3', '4', '5'], true⟩
      = "@01 1 02 OK IDLE -- 12345:3B\r\n".toList)
    ∧ (asciiReplyParse (canonRender ⟨1, 1, some 2, ['O', 'K'], ['I', 'D', 'L', 'E'],
          ['-', '-'], ['1', '2', '3', '4', '5'], true⟩)
        = some (canonParsed ⟨1, 1, some 2, ['O', 'K'], ['I', 'D', 'L', 'E'], ['-', '-'],
            ['1', '2', '3', '4', '5'], true⟩
            (if (true : Bool) then some (lrcChecksum ((canonCore ⟨1, 1, some 2, ['O', 'K'],
                ['I', 'D', 'L', 'E'], ['-', '-'], ['1', '2', '3', '4', '5'], true⟩).drop 1))
              else none))
      ∧ asciiReplyEncode (canonParsed ⟨1, 1, some 2, ['O', 'K'], ['I', 'D', 'L', 'E'],
            ['-', '-'], ['1', '2', '3', '4', '5'], true⟩
            (if (true : Bool) then some (lrcChecksum ((canonCore ⟨1, 1, some 2, ['O', 'K'],
                ['I', 'D', 'L', 'E'], ['-', '-'], ['1', '2', '3', '4', '5'], true⟩).drop 1))
              else none))
        = canonRender ⟨1, 1, some 2, ['O', 'K'], ['I', 'D', 'L', 'E'], ['-', '-'],
            ['1', '2', '3', '4', '5'], true⟩) :=
  ⟨by decide,
    C8_amended_canonical_roundtrip
      ⟨1, 1, some 2, ['O', 'K'], ['I', 'D', 'L', 'E'], ['-', '-'],
        ['1', '2', '3', '4', '5'], true⟩
      ⟨by norm_num, by norm_num, by norm_num, by decide, Or.inl rfl, Or.inr rfl,
        ⟨'-', '-', rfl, by decide, by decide, by decide, by decide⟩, by decide, by decide⟩⟩

/-! ### Resonance detector peak finding (claim C5)

`meas_findRes.py`, `find_peaks` (lines 171-325), as called by
`fc_tune.py`, `res_detect` (line 327): the Savitzky-Golay filtered and
normalised phase gradient is sliced for adaptive thresholds and passed to
`scipy.signal.find_peaks` with per-sample `height` and `prominence`
thresholds, a minimal sample `distance`, and a prominence window `wlen`.
The embedding computes the `'Peak freqs filt'` output.  Because the
surrounding `try`/`finally` block ends in `return peakdict`, every
exception raised inside the `try` is swallowed and the partially-filled
dictionary (whose `'Peak freqs filt'` is the initial `[]`) is returned;
the `Option` plumbing below returns `none` on exactly those paths and the
wrapper maps `none` to `[]`.

Thresholds `mean + stdv * std` contain a square root; they are carried as
pairs `(mean, stdv^2 * variance)` and the comparison
`a >= mean + stdv*std` is embedded as the equivalent rational test
`mean <= a && stdv^2 * variance <= (a - mean)^2` (for `stdv ≥ 0`). -/

/-- Python 2 `round`: round half away from zero. -/
def pyRound (q : ℚ) : ℤ := if q < 0 then -⌊-q + 1 / 2⌋ else ⌊q + 1 / 2⌋

/-- The Python built-in `max` over a nonempty list (first maximum). -/
def pyListMax : List ℚ → Option ℚ
  | [] => none
  | x :: rest => some (rest.foldl (fun a y => if a < y then y else a) x)

/-- Moment sum `Σ_{t=0}^{w-1} t^r` of the polyfit normal equations. -/
def vanderSum (w r : ℕ) : ℚ := ((List.range w).map fun t => (t : ℚ) ^ r).sum

/-- First row with a nonzero leading entry, and the remaining rows. -/
def extractPivot : List (List ℚ) → Option (List ℚ × List (List ℚ))
  | [] => none
  | r :: rs =>
    if r.headD 0 ≠ 0 then some (r, rs)
    else (extractPivot rs).map fun pr => (pr.1, r :: pr.2)

/-- Exact Gaussian elimination with back substitution on an `n × (n+1)`
augmented system (`none` on a singular system). -/
def gaussSolve : ℕ → List (List ℚ) → Option (List ℚ)
  | 0, _ => some []
  | n + 1, rows => do
    let (prow, rest) ← extractPivot rows
    let pv := prow.headD 1
    let prowN := prow.tail.map (· / pv)
    let rest2 := rest.map fun r =>
      List.zipWith (fun x y => x - r.headD 0 * y) r.tail prowN
    let xs ← gaussSolve n rest2
    let rhs := prowN.getLast?.getD 0
    pure ((rhs - (List.zipWith (· * ·) (prowN.take n) xs).sum) :: xs)

/-- Embeds `np.polyfit` of degree `p` on nodes `0, 1, ..., len(ys)-1`,
returned with ascending coefficient order: the unique least-squares
solution, computed through the normal equations (equal to the `lstsq`
result of numpy whenever the system is nonsingular). -/
def polyfit (ys : List ℚ) (p : ℕ) : Option (List ℚ) :=
  gaussSolve (p + 1) ((List.range (p + 1)).map fun r =>
    ((List.range (p + 1)).map fun c => vanderSum ys.length (r + c))
      ++ [(List.zipWith (fun t y => (t : ℚ) ^ r * y) (List.range ys.length) ys).sum])

/-- Polynomial evaluation, ascending coefficients (Horner). -/
def polyEval (co : List ℚ) (x : ℚ) : ℚ :=
  co.foldr (fun c acc => c + x * acc) 0

/-- Embeds `scipy.signal.savgol_filter(xs, w, p)` with the default
`mode='interp'`: interior samples are the least-squares fit of the
centered window evaluated at its center (what the FIR convolution with
the Savitzky-Golay coefficients computes), and each edge is a single
polynomial fit of the first/last window evaluated at the edge positions.
`none` embeds scipy's `ValueError`s (even window, `polyorder >=
window_length`, window longer than the data). -/
def savgolFilter (xs : List ℚ) (w p : ℕ) : Option (List ℚ) :=
  let n := xs.length
  if w % 2 = 1 ∧ p < w ∧ w ≤ n then
    match polyfit (xs.take w) p, polyfit (xs.drop (n - w)) p with
    | some fitA, some fitB =>
      (List.range n).mapM fun i =>
        if i < w / 2 then some (polyEval fitA i)
        else if n - w / 2 ≤ i then some (polyEval fitB ((i - (n - w) : ℕ) : ℚ))
        else (polyfit ((xs.drop (i - w / 2)).take w) p).map fun co =>
          polyEval co ((w / 2 : ℕ) : ℚ)
    | _, _ => none
  else none

/-- Mean of a chunk (the chunks below are nonempty). -/
def meanOf (l : List ℚ) : ℚ := l.sum / l.length

/-- Population variance (`np.std` squared). -/
def varOf (l : List ℚ) : ℚ := ((l.map fun x => (x - meanOf l) ^ 2).sum) / l.length

/-- The `range(0, len, nop)` slicing of the filtered gradient. -/
def chunksOf : ℕ → List ℚ → ℕ → List (List ℚ)
  | 0, _, _ => []
  | _, [], _ => []
  | fuel + 1, xs, k => xs.take k :: chunksOf fuel (xs.drop k) k

/-- The tiled per-sample `(mean, stdv^2 * variance)` threshold array
(`heights_filt`). -/
def heightsArr (normed : List ℚ) (k : ℕ) (stdv : ℚ) : List (ℚ × ℚ) :=
  ((chunksOf normed.length normed k).map fun ch =>
    ch.map fun _ => (meanOf ch, stdv ^ 2 * varOf ch)).flatten

/-- Threshold test `a >= mean + stdv * std` for the threshold pair
`t = (mean, stdv^2 * variance)`. -/
def geThresh (a : ℚ) (t : ℚ × ℚ) : Bool :=
  decide (t.1 ≤ a) && decide (t.2 ≤ (a - t.1) ^ 2)

/-- End of a plateau: first index `j' ≥ j` with `j' ≥ imax` or
`x j' ≠ v` (scipy `_local_maxima_1d` inner loop). -/
def plateauEnd (x : ℕ → ℚ) (imax : ℕ) (v : ℚ) : ℕ → ℕ → ℕ
  | 0, j => j
  | fuel + 1, j => if j < imax ∧ x j = v then plateauEnd x imax v fuel (j + 1) else j

/-- Main scan of scipy `_local_maxima_1d`: midpoints of strict local
maxima (plateaus allowed) over indices `1 .. n-2`. -/
def lmAux (x : ℕ → ℚ) (n : ℕ) : ℕ → ℕ → List ℕ
  | 0, _ => []
  | fuel + 1, i =>
    if i + 1 < n then
      if x (i - 1) < x i then
        if x (plateauEnd x (n - 1) (x i) n (i + 1)) < x i then
          (i + plateauEnd x (n - 1) (x i) n (i + 1) - 1) / 2
            :: lmAux x n fuel (plateauEnd x (n - 1) (x i) n (i + 1) + 1)
        else lmAux x n fuel (i + 1)
      else lmAux x n fuel (i + 1)
    else []

def localMaxima (x : ℕ → ℚ) (n : ℕ) : List ℕ := lmAux x n n 1

/-- Boolean-mask selection `peaks[keep]`. -/
def maskFilter : List ℕ → List Bool → List ℕ
  | [], _ => []
  | _ :: _, [] => []
  | p :: ps, b :: bs => if b then p :: maskFilter ps bs else maskFilter ps bs

/-- Right-clearing scan of `_select_by_peak_distance`:
`while k < m and peaks[k] - peaks[j] < d: keep[k] = 0; k += 1`. -/
def dsClearRight (pk : ℕ → ℤ) (d pj : ℤ) : ℕ → ℕ → List Bool → List Bool
  | 0, _, mask => mask
  | fuel + 1, k, mask =>
    if k < mask.length ∧ pk k - pj < d then
      dsClearRight pk d pj fuel (k + 1) (mask.set k false)
    else mask

/-- Left-clearing scan of `_select_by_peak_distance`:
`while 0 <= k and peaks[j] - peaks[k] < d: keep[k] = 0; k -= 1`. -/
def dsClearLeft (pk : ℕ → ℤ) (d pj : ℤ) : ℕ → List Bool → List Bool
  | 0, mask => if pj - pk 0 < d then mask.set 0 false else mask
  | k + 1, mask =>
    if pj - pk (k + 1) < d then dsClearLeft pk d pj k (mask.set (k + 1) false)
    else mask

/-- Processing one position of the priority order: skip if already
cleared, otherwise clear every contiguous neighbour closer than `d`. -/
def dsStep (pk : ℕ → ℤ) (d : ℤ) (mask : List Bool) (j : ℕ) : List Bool :=
  if mask.getD j false = true then
    let m1 := match j with
      | 0 => mask
      | j' + 1 => dsClearLeft pk d (pk j) j' mask
    dsClearRight pk d (pk j) m1.length (j + 1) m1
  else mask

/-- Stable ascending insertion sort by a boolean `le` key comparison
(embeds `np.argsort` of the priority array; numpy's quicksort leaves the
order of equal keys unspecified, this embedding fixes the stable one). -/
def insertLe (le : ℕ → ℕ → Bool) (a : ℕ) : List ℕ → List ℕ
  | [] => [a]
  | b :: bs => if le a b then a :: b :: bs else b :: insertLe le a bs

def insertionSort (le : ℕ → ℕ → Bool) (l : List ℕ) : List ℕ :=
  l.foldr (insertLe le) []

/-- Embeds `_select_by_peak_distance`: process positions by decreasing priority
(`x[peaks]`), clearing neighbours within `d` samples of each surviving
peak, then select by the final mask. -/
def distanceSelect (peaks : List ℕ) (xval : ℕ → ℚ) (d : ℤ) : List ℕ :=
  let pk : ℕ → ℤ := fun i => (peaks.getD i 0 : ℤ)
  let order := (insertionSort
    (fun a b => decide (xval (peaks.getD a 0) ≤ xval (peaks.getD b 0)))
    (List.range peaks.length)).reverse
  maskFilter peaks (order.foldl (dsStep pk d) (List.replicate peaks.length true))

/-- Left base scan of `_peak_prominences`:
`while i_min <= i and x[i] <= x[peak]: left_min = min(left_min, x[i]); i -= 1`. -/
def promScanLeft (x : ℕ → ℚ) (xp : ℚ) (imin : ℕ) : ℕ → ℚ → ℚ
  | 0, acc => if imin ≤ 0 ∧ x 0 ≤ xp then (if x 0 < acc then x 0 else acc) else acc
  | i + 1, acc =>
    if imin ≤ i + 1 ∧ x (i + 1) ≤ xp then
      promScanLeft x xp imin i (if x (i + 1) < acc then x (i + 1) else acc)
    else acc

/-- Right base scan of `_peak_prominences`. -/
def promScanRight (x : ℕ → ℚ) (xp : ℚ) (imax : ℕ) : ℕ → ℕ → ℚ → ℚ
  | 0, _, acc => acc
  | fuel + 1, i, acc =>
    if i ≤ imax ∧ x i ≤ xp then
      promScanRight x xp imax fuel (i + 1) (if x i < acc then x i else acc)
    else acc

/-- Embeds `scipy.signal._peak_prominences` for one peak, window `wlen`. -/
def prominence (x : ℕ → ℚ) (n : ℕ) (wlen : ℤ) (p : ℕ) : ℚ :=
  let imin := if 2 ≤ wlen then p - (wlen / 2).toNat else 0
  let imax := if 2 ≤ wlen then
      (if n - 1 < p + (wlen / 2).toNat then n - 1 else p + (wlen / 2).toNat)
    else n - 1
  let lm := promScanLeft x (x p) imin p (x p)
  let rm := promScanRight x (x p) imax n p (x p)
  x p - (if lm < rm then rm else lm)

/-- Succeeds exactly when the condition holds (an exception guard). -/
def okIf (c : Prop) [Decidable c] : Option Unit :=
  if c then some () else none

/-- The peak-index list of the filtered path of `find_peaks`, `none` on
every path where the Python code raises inside the `try` block (each
guard names the exception it embeds). -/
def findPeaksIdxFiltO (freqs grads : List ℚ) (dist_peaks : ℚ) (svw svp : ℕ)
    (winlen freq_slice stdv : ℚ) : Option (List ℕ) := do
  let n := freqs.length
  -- fdelta = (freqs[-1]-freqs[0])/(len(freqs)-1): an empty sweep raises
  -- IndexError and a single point yields no interior local maximum, so
  -- both return the empty list; freqs and grads always have the same
  -- length (both come from the same phasegrad_VNA sweep, and np.gradient
  -- preserves length), which the embedding fixes as a well-formedness
  -- guard.
  okIf (2 ≤ n ∧ grads.length = n)
  let fdelta := (freqs.getLast?.getD 0 - freqs.headD 0) / ((n : ℚ) - 1)
  let filtered ← savgolFilter grads svw svp
  let mx ← pyListMax filtered
  -- grads_filt/max(grads_filt): a zero maximum floods the array with
  -- IEEE infinities/NaNs; modelled as a failing path.
  okIf (mx ≠ 0)
  let normed := filtered.map (· / mx)
  okIf (freq_slice ≠ 0)  -- ZeroDivisionError in the slice count
  let slices : ℤ := ⌈(freqs.getLast?.getD 0 - freqs.headD 0) / freq_slice⌉
  okIf (0 < slices)      -- empty/negative slicing ranges
  let nop := Int.toNat ⌊(n : ℚ) / (slices : ℚ)⌋
  okIf (nop ≠ 0)         -- range() with step 0 raises ValueError
  let hts := heightsArr normed nop stdv
  let dist_points : ℤ := pyRound (dist_peaks / fdelta)
  okIf (1 ≤ dist_points) -- scipy rejects a distance below 1
  let winlength : ℤ := pyRound (winlen / fdelta)
  okIf (1 < winlength)   -- scipy rejects a wlen not larger than 1
  let xv : ℕ → ℚ := fun i => normed.getD i 0
  let peaks0 := localMaxima xv n
  let peaks1 := peaks0.filter fun p => geThresh (xv p) (hts.getD p (0, 0))
  let peaks2 := distanceSelect peaks1 xv dist_points
  let peaks3 := peaks2.filter fun p =>
    geThresh (prominence xv n winlength p) (hts.getD p (0, 0))
  pure peaks3

/-- Sample indices of `'Peak freqs filt'` (`[]` on the swallowed-error
path: the `finally: ...; return peakdict` returns the initialised empty
list). -/
def findPeaksIdxFilt (freqs grads : List ℚ) (dist_peaks : ℚ) (svw svp : ℕ)
    (winlen freq_slice stdv : ℚ) : List ℕ :=
  (findPeaksIdxFiltO freqs grads dist_peaks svw svp winlen freq_slice stdv).getD []

/-- The detected resonance frequencies, entry `'Peak freqs filt'` of the
returned dictionary (`res_detect` returns exactly this list). -/
def findPeaksFreqsFilt (freqs grads : List ℚ) (dist_peaks : ℚ) (svw svp : ℕ)
    (winlen freq_slice stdv : ℚ) : List ℚ :=
  (findPeaksIdxFilt freqs grads dist_peaks svw svp winlen freq_slice stdv).map
    fun p => freqs.getD p 0

/-- The minimal peak separation in samples that the pipeline enforces:
`round(dist_peaks / fdelta)` (scipy additionally takes `ceil`, the
identity on this integer value). -/
def sampleDist (freqs : List ℚ) (dist_peaks : ℚ) : ℕ :=
  Int.toNat (pyRound (dist_peaks /
    ((freqs.getLast?.getD 0 - freqs.headD 0) / ((freqs.length : ℚ) - 1))))

lemma plateauEnd_ge (x : ℕ → ℚ) (imax : ℕ) (v : ℚ) :
    ∀ fuel j, j ≤ plateauEnd x imax v fuel j := by
  intro fuel
  induction fuel with
  | zero => intro j; simp [plateauEnd]
  | succ fuel ih =>
    intro j
    simp only [plateauEnd]
    split
    · exact le_trans (Nat.le_succ j) (ih (j + 1))
    · exact le_refl j

lemma plateauEnd_le (x : ℕ → ℚ) (imax : ℕ) (v : ℚ) :
    ∀ fuel j, j ≤ imax → plateauEnd x imax v fuel j ≤ imax := by
  intro fuel
  induction fuel with
  | zero => intro j h; simpa [plateauEnd] using h
  | succ fuel ih =>
    intro j h
    simp only [plateauEnd]
    split
    · next hc => exact ih (j + 1) (by omega)
    · exact h

lemma lmAux_spec (x : ℕ → ℚ) (n : ℕ) :
    ∀ fuel i, 1 ≤ i →
      List.Pairwise (· < ·) (lmAux x n fuel i)
        ∧ ∀ e ∈ lmAux x n fuel i, i ≤ e ∧ e + 1 < n := by
  intro fuel
  induction fuel with
  | zero => intro i _; simp [lmAux]
  | succ fuel ih =>
    intro i hi
    simp only [lmAux]
    split
    · next h1 =>
      split
      · next h2 =>
        split
        · next h3 =>
          have hge := plateauEnd_ge x (n - 1) (x i) n (i + 1)
          have hle := plateauEnd_le x (n - 1) (x i) n (i + 1) (by omega)
          obtain ⟨ihp, ihb⟩ :=
            ih (plateauEnd x (n - 1) (x i) n (i + 1) + 1) (by omega)
          constructor
          · refine List.Pairwise.cons (fun e he => ?_) ihp
            have := (ihb e he).1
            omega
          · intro e he
            rcases List.mem_cons.mp he with rfl | he'
            · omega
            · have := ihb e he'
              omega
        · next h3 =>
          obtain ⟨hp, hb⟩ := ih (i + 1) (by omega)
          exact ⟨hp, fun e he => by have := hb e he; omega⟩
      · next h2 =>
        obtain ⟨hp, hb⟩ := ih (i + 1) (by omega)
        exact ⟨hp, fun e he => by have := hb e he; omega⟩
    · next h1 => simp

lemma localMaxima_spec (x : ℕ → ℚ) (n : ℕ) :
    List.Pairwise (· < ·) (localMaxima x n)
      ∧ ∀ e ∈ localMaxima x n, 1 ≤ e ∧ e + 1 < n := by
  have h := lmAux_spec x n n 1 le_rfl
  exact ⟨h.1, fun e he => ⟨(h.2 e he).1, (h.2 e he).2⟩⟩

lemma maskFilter_sublist : ∀ (ps : List ℕ) (bs : List Bool), List.Sublist (maskFilter ps bs) ps := by
  intro ps
  induction ps with
  | nil => intro bs; cases bs <;> simp [maskFilter]
  | cons p ps ih =>
    intro bs
    cases bs with
    | nil => simp [maskFilter]
    | cons b bs =>
      simp only [maskFilter]
      split
      · exact List.Sublist.cons₂ p (ih bs)
      · exact List.Sublist.cons p (ih bs)

lemma maskFilter_mem_idx : ∀ (ps : List ℕ) (bs : List Bool) (q : ℕ),
    q ∈ maskFilter ps bs →
      ∃ j, j < ps.length ∧ bs.getD j false = true ∧ ps.getD j 0 = q := by
  intro ps
  induction ps with
  | nil => intro bs q h; cases bs <;> simp [maskFilter] at h
  | cons p ps ih =>
    intro bs q h
    cases bs with
    | nil => simp [maskFilter] at h
    | cons b bs =>
      simp only [maskFilter] at h
      split at h
      · next hb =>
        rcases List.mem_cons.mp h with rfl | h'
        · exact ⟨0, by simp, by simpa using hb, rfl⟩
        · obtain ⟨j, hj, hbj, hpj⟩ := ih bs q h'
          exact ⟨j + 1, by simpa using hj, by simpa using hbj, by simpa using hpj⟩
      · obtain ⟨j, hj, hbj, hpj⟩ := ih bs q h
        exact ⟨j + 1, by simpa using hj, by simpa using hbj, by simpa using hpj⟩

lemma maskFilter_pairwise_gap (d : ℤ) :
    ∀ (ps : List ℕ) (bs : List Bool),
      (∀ i j, i < j → j < ps.length → bs.getD i false = true →
        bs.getD j false = true → (ps.getD i 0 : ℤ) + d ≤ (ps.getD j 0 : ℤ)) →
      List.Pairwise (fun a b : ℕ => (a : ℤ) + d ≤ (b : ℤ)) (maskFilter ps bs) := by
  intro ps
  induction ps with
  | nil => intro bs _; cases bs <;> simp [maskFilter]
  | cons p ps ih =>
    intro bs hQ
    cases bs with
    | nil => simp [maskFilter]
    | cons b bs =>
      have hQ' : ∀ i j, i < j → j < ps.length → bs.getD i false = true →
          bs.getD j false = true →
          (ps.getD i 0 : ℤ) + d ≤ (ps.getD j 0 : ℤ) := by
        intro i j hij hj hbi hbj
        have := hQ (i + 1) (j + 1) (by omega) (by simpa using hj)
          (by simpa using hbi) (by simpa using hbj)
        simpa using this
      simp only [maskFilter]
      split
      · next hb =>
        refine List.Pairwise.cons (fun q hq => ?_) (ih bs hQ')
        obtain ⟨j, hj, hbj, hpj⟩ := maskFilter_mem_idx ps bs q hq
        have := hQ 0 (j + 1) (by omega) (by simpa using hj)
          (by simpa using hb) (by simpa using hbj)
        rw [List.getD_cons_zero, List.getD_cons_succ, hpj] at this
        exact this
      · exact ih bs hQ'

lemma insertLe_mem (le : ℕ → ℕ → Bool) (a : ℕ) :
    ∀ (l : List ℕ) (b : ℕ), b = a ∨ b ∈ l → b ∈ insertLe le a l := by
  intro l
  induction l with
  | nil =>
    intro b h
    rcases h with rfl | h
    · simp [insertLe]
    · simp at h
  | cons c cs ih =>
    intro b h
    simp only [insertLe]
    split
    · rcases h with rfl | h
      · exact List.mem_cons_self _ _
      · exact List.mem_cons_of_mem _ h
    · rcases h with rfl | h
      · exact List.mem_cons_of_mem _ (ih b (Or.inl rfl))
      · rcases List.mem_cons.mp h with rfl | h'
        · exact List.mem_cons_self _ _
        · exact List.mem_cons_of_mem _ (ih b (Or.inr h'))

lemma insertionSort_mem (le : ℕ → ℕ → Bool) :
    ∀ (l : List ℕ) (b : ℕ), b ∈ l → b ∈ insertionSort le l := by
  intro l
  induction l with
  | nil => intro b h; simp at h
  | cons c cs ih =>
    intro b h
    have hrw : insertionSort le (c :: cs) = insertLe le c (insertionSort le cs) := rfl
    rw [hrw]
    rcases List.mem_cons.mp h with rfl | h'
    · exact insertLe_mem le b _ b (Or.inl rfl)
    · exact insertLe_mem le c _ b (Or.inr (ih b h'))


lemma getD_set_false_mono : ∀ (mask : List Bool) (k i : ℕ),
    (mask.set k false).getD i false = true → mask.getD i false = true := by
  intro mask
  induction mask with
  | nil => intro k i h; simp at h
  | cons m ms ih =>
    intro k i h
    cases k with
    | zero =>
      cases i with
      | zero => simp [List.set] at h
      | succ i => simpa [List.set] using h
    | succ k =>
      cases i with
      | zero => simpa [List.set] using h
      | succ i => exact ih k i (by simpa [List.set] using h)

lemma set_false_getD_self : ∀ (mask : List Bool) (k : ℕ), k < mask.length →
    (mask.set k false).getD k false = false := by
  intro mask
  induction mask with
  | nil => intro k hk; simp at hk
  | cons m ms ih =>
    intro k hk
    cases k with
    | zero => simp [List.set]
    | succ k => simpa [List.set] using ih k (by simpa using hk)

lemma dsClearLeft_length (pk : ℕ → ℤ) (d pj : ℤ) :
    ∀ (k : ℕ) (mask : List Bool), (dsClearLeft pk d pj k mask).length = mask.length := by
  intro k
  induction k with
  | zero =>
    intro mask
    simp only [dsClearLeft]
    split
    · exact List.length_set mask 0 false
    · rfl
  | succ k ih =>
    intro mask
    simp only [dsClearLeft]
    split
    · rw [ih, List.length_set]
    · rfl

lemma dsClearRight_length (pk : ℕ → ℤ) (d pj : ℤ) :
    ∀ (fuel k : ℕ) (mask : List Bool),
      (dsClearRight pk d pj fuel k mask).length = mask.length := by
  intro fuel
  induction fuel with
  | zero => intro k mask; rfl
  | succ fuel ih =>
    intro k mask
    simp only [dsClearRight]
    split
    · rw [ih, List.length_set]
    · rfl

lemma dsClearLeft_mono (pk : ℕ → ℤ) (d pj : ℤ) :
    ∀ (k : ℕ) (mask : List Bool) (i : ℕ),
      (dsClearLeft pk d pj k mask).getD i false = true → mask.getD i false = true := by
  intro k
  induction k with
  | zero =>
    intro mask i h
    simp only [dsClearLeft] at h
    split at h
    · exact getD_set_false_mono _ _ _ h
    · exact h
  | succ k ih =>
    intro mask i h
    simp only [dsClearLeft] at h
    split at h
    · exact getD_set_false_mono _ _ _ (ih _ _ h)
    · exact h

lemma dsClearRight_mono (pk : ℕ → ℤ) (d pj : ℤ) :
    ∀ (fuel k : ℕ) (mask : List Bool) (i : ℕ),
      (dsClearRight pk d pj fuel k mask).getD i false = true →
        mask.getD i false = true := by
  intro fuel
  induction fuel with
  | zero => intro k mask i h; exact h
  | succ fuel ih =>
    intro k mask i h
    simp only [dsClearRight] at h
    split at h
    · exact getD_set_false_mono _ _ _ (ih _ _ _ h)
    · exact h

lemma dsClearRight_keeps_false (pk : ℕ → ℤ) (d pj : ℤ)
    (fuel k : ℕ) (mask : List Bool) (i : ℕ) (h : mask.getD i false = false) :
    (dsClearRight pk d pj fuel k mask).getD i false = false := by
  cases hgd : (dsClearRight pk d pj fuel k mask).getD i false with
  | false => rfl
  | true => rw [dsClearRight_mono pk d pj fuel k mask i hgd] at h; simp at h

lemma dsClearLeft_keeps_false (pk : ℕ → ℤ) (d pj : ℤ)
    (k : ℕ) (mask : List Bool) (i : ℕ) (h : mask.getD i false = false) :
    (dsClearLeft pk d pj k mask).getD i false = false := by
  cases hgd : (dsClearLeft pk d pj k mask).getD i false with
  | false => rfl
  | true => rw [dsClearLeft_mono pk d pj k mask i hgd] at h; simp at h

lemma dsClearRight_clears (pk : ℕ → ℤ) (d pj : ℤ) (i : ℕ) :
    ∀ (fuel k : ℕ) (mask : List Bool), i < mask.length → k ≤ i → i - k < fuel →
      (∀ t, k ≤ t → t ≤ i → pk t - pj < d) →
      (dsClearRight pk d pj fuel k mask).getD i false = false := by
  intro fuel
  induction fuel with
  | zero => intro k mask _ hk hf _; omega
  | succ fuel ih =>
    intro k mask hlen hki hfuel hall
    simp only [dsClearRight]
    rw [if_pos ⟨by omega, hall k le_rfl hki⟩]
    rcases eq_or_lt_of_le hki with rfl | hki'
    · exact dsClearRight_keeps_false _ _ _ _ _ _ _ (set_false_getD_self mask k hlen)
    · exact ih (k + 1) (mask.set k false) (by rwa [List.length_set]) (by omega)
        (by omega) (fun t ht1 ht2 => hall t (by omega) ht2)

lemma dsClearLeft_clears (pk : ℕ → ℤ) (d pj : ℤ) (i : ℕ) :
    ∀ (k : ℕ) (mask : List Bool), i ≤ k → k < mask.length →
      (∀ t, i ≤ t → t ≤ k → pj - pk t < d) →
      (dsClearLeft pk d pj k mask).getD i false = false := by
  intro k
  induction k with
  | zero =>
    intro mask hik hk hall
    have hi0 : i = 0 := by omega
    subst hi0
    simp only [dsClearLeft]
    rw [if_pos (hall 0 le_rfl le_rfl)]
    exact set_false_getD_self mask 0 hk
  | succ k ih =>
    intro mask hik hk hall
    simp only [dsClearLeft]
    rw [if_pos (hall (k + 1) hik le_rfl)]
    rcases eq_or_lt_of_le hik with rfl | hik'
    · exact dsClearLeft_keeps_false _ _ _ _ _ _ (set_false_getD_self mask (k + 1) hk)
    · exact ih (mask.set (k + 1) false) (by omega) (by rw [List.length_set]; omega)
        (fun t ht1 ht2 => hall t ht1 (by omega))

lemma dsStep_mono (pk : ℕ → ℤ) (d : ℤ) (mask : List Bool) (j i : ℕ)
    (h : (dsStep pk d mask j).getD i false = true) : mask.getD i false = true := by
  simp only [dsStep] at h
  split at h
  · cases j with
    | zero => exact dsClearRight_mono _ _ _ _ _ _ _ h
    | succ j' =>
      exact dsClearLeft_mono _ _ _ _ _ _ (dsClearRight_mono _ _ _ _ _ _ _ h)
  · exact h

lemma dsStep_length (pk : ℕ → ℤ) (d : ℤ) (mask : List Bool) (j : ℕ) :
    (dsStep pk d mask j).length = mask.length := by
  simp only [dsStep]
  split
  · cases j with
    | zero => rw [dsClearRight_length]
    | succ j' => rw [dsClearRight_length, dsClearLeft_length]
  · rfl

lemma dsStep_clears (pk : ℕ → ℤ) (d : ℤ) (mask : List Bool) (i j : ℕ)
    (hm : ∀ a b, a < b → b < mask.length → pk a < pk b)
    (hj : mask.getD j false = true) (hi : i < mask.length) (hjl : j < mask.length)
    (hne : i ≠ j) (hgap1 : pk i - pk j < d) (hgap2 : pk j - pk i < d) :
    (dsStep pk d mask j).getD i false = false := by
  simp only [dsStep]
  rw [if_pos hj]
  rcases lt_or_gt_of_ne hne with hij | hij
  · cases j with
    | zero => omega
    | succ j' =>
      apply dsClearRight_keeps_false
      apply dsClearLeft_clears pk d (pk (j' + 1)) i j' mask (by omega) (by omega)
      intro t ht1 ht2
      rcases eq_or_lt_of_le ht1 with rfl | hit
      · exact hgap2
      · have := hm i t hit (by omega)
        omega
  · cases j with
    | zero =>
      apply dsClearRight_clears pk d (pk 0) i mask.length 1 mask hi (by omega) (by omega)
      intro t ht1 ht2
      rcases eq_or_lt_of_le ht2 with rfl | hti
      · exact hgap1
      · have := hm t i hti hi
        omega
    | succ j' =>
      have hlen1 : (dsClearLeft pk d (pk (j' + 1)) j' mask).length = mask.length :=
        dsClearLeft_length pk d (pk (j' + 1)) j' mask
      apply dsClearRight_clears pk d (pk (j' + 1)) i _ (j' + 2) _
        (by rwa [hlen1]) (by omega) (by rw [hlen1]; omega)
      intro t ht1 ht2
      rcases eq_or_lt_of_le ht2 with rfl | hti
      · exact hgap1
      · have := hm t i hti hi
        omega

lemma foldl_dsStep_mono (pk : ℕ → ℤ) (d : ℤ) :
    ∀ (l : List ℕ) (mask : List Bool) (i : ℕ),
      (l.foldl (dsStep pk d) mask).getD i false = true → mask.getD i false = true := by
  intro l
  induction l with
  | nil => intro mask i h; exact h
  | cons j l ih =>
    intro mask i h
    exact dsStep_mono _ _ _ _ _ (ih _ _ h)

lemma foldl_dsStep_length (pk : ℕ → ℤ) (d : ℤ) :
    ∀ (l : List ℕ) (mask : List Bool),
      (l.foldl (dsStep pk d) mask).length = mask.length := by
  intro l
  induction l with
  | nil => intro mask; rfl
  | cons j l ih =>
    intro mask
    rw [List.foldl_cons, ih, dsStep_length]

lemma distanceSelect_sublist (peaks : List ℕ) (xval : ℕ → ℚ) (d : ℤ) :
    List.Sublist (distanceSelect peaks xval d) peaks :=
  maskFilter_sublist _ _

lemma pairwise_getD_lt (peaks : List ℕ) (h : List.Pairwise (· < ·) peaks)
    {a b : ℕ} (hab : a < b) (hb : b < peaks.length) :
    peaks.getD a 0 < peaks.getD b 0 := by
  have := List.pairwise_iff_getElem.mp h a b (by omega) hb hab
  rwa [List.getD_eq_getElem peaks 0 (by omega), List.getD_eq_getElem peaks 0 hb]

lemma distanceSelect_gap (peaks : List ℕ) (xval : ℕ → ℚ) (d : ℤ)
    (hsorted : List.Pairwise (· < ·) peaks) :
    List.Pairwise (fun a b : ℕ => (a : ℤ) + d ≤ (b : ℤ))
      (distanceSelect peaks xval d) := by
  show List.Pairwise _ (maskFilter peaks _)
  apply maskFilter_pairwise_gap
  intro i j hij hj hbi hbj
  by_contra hlt
  push_neg at hlt
  set pk : ℕ → ℤ := fun i => (peaks.getD i 0 : ℤ) with hpk
  set order := (insertionSort
    (fun a b => decide (xval (peaks.getD a 0) ≤ xval (peaks.getD b 0)))
    (List.range peaks.length)).reverse with horder
  set mask0 := List.replicate peaks.length true with hmask0
  have hm : ∀ a b, a < b → b < peaks.length → pk a < pk b := by
    intro a b hab hb
    simp only [hpk]
    exact_mod_cast pairwise_getD_lt peaks hsorted hab hb
  have hjo : j ∈ order := by
    rw [horder, List.mem_reverse]
    exact insertionSort_mem _ _ j (List.mem_range.mpr hj)
  obtain ⟨o1, o2, ho12⟩ := List.append_of_mem hjo
  have hsplit : order.foldl (dsStep pk d) mask0
      = o2.foldl (dsStep pk d) (dsStep pk d (o1.foldl (dsStep pk d) mask0) j) := by
    rw [ho12, List.foldl_append, List.foldl_cons]
  set stage := o1.foldl (dsStep pk d) mask0 with hstage
  have hstlen : stage.length = peaks.length := by
    rw [hstage, foldl_dsStep_length, hmask0, List.length_replicate]
  have hAi : (dsStep pk d stage j).getD i false = true := by
    apply foldl_dsStep_mono pk d o2
    rw [← hsplit]
    exact hbi
  have hBj : stage.getD j false = true := by
    apply dsStep_mono pk d stage j j
    apply foldl_dsStep_mono pk d o2
    rw [← hsplit]
    exact hbj
  have hsij : pk i < pk j := hm i j hij hj
  have epki : pk i = (peaks.getD i 0 : ℤ) := rfl
  have epkj : pk j = (peaks.getD j 0 : ℤ) := rfl
  have hclr : (dsStep pk d stage j).getD i false = false := by
    apply dsStep_clears pk d stage i j
      (fun a b hab hb => hm a b hab (by omega)) hBj (by omega) (by omega)
      (by omega) (by omega) (by omega)
  rw [hAi] at hclr
  simp at hclr

lemma okIf_eq_some {c : Prop} [Decidable c] {u : Unit} (h : okIf c = some u) : c := by
  by_cases hc : c
  · exact hc
  · simp [okIf, hc] at h

lemma ratList_getD_lt (l : List ℚ) (h : List.Pairwise (· < ·) l)
    {a b : ℕ} (hab : a < b) (hb : b < l.length) : l.getD a 0 < l.getD b 0 := by
  have := List.pairwise_iff_getElem.mp h a b (by omega) hb hab
  rwa [List.getD_eq_getElem l 0 (by omega), List.getD_eq_getElem l 0 hb]

lemma ratList_getD_le (l : List ℚ) (h : List.Pairwise (· < ·) l)
    {a b : ℕ} (hab : a ≤ b) (hb : b < l.length) : l.getD a 0 ≤ l.getD b 0 := by
  rcases eq_or_lt_of_le hab with rfl | hab'
  · exact le_refl _
  · exact le_of_lt (ratList_getD_lt l h hab' hb)

lemma headD_eq_getD (l : List ℚ) : l.headD 0 = l.getD 0 0 := by
  cases l <;> rfl

lemma getLast?_getD_eq_getD (l : List ℚ) :
    l.getLast?.getD 0 = l.getD (l.length - 1) 0 := by
  cases l with
  | nil => rfl
  | cons a as =>
    rw [List.getLast?_eq_getElem?, List.getElem?_eq_getElem (by simp),
      Option.getD_some, List.getD_eq_getElem _ 0 (by simp)]

lemma findPeaksIdxFilt_spec (freqs grads : List ℚ) (dist_peaks : ℚ) (svw svp : ℕ)
    (winlen freq_slice stdv : ℚ) :
    List.Pairwise (fun p q : ℕ => p + sampleDist freqs dist_peaks ≤ q ∧ p < q)
      (findPeaksIdxFilt freqs grads dist_peaks svw svp winlen freq_slice stdv)
    ∧ ∀ p ∈ findPeaksIdxFilt freqs grads dist_peaks svw svp winlen freq_slice stdv,
        1 ≤ p ∧ p + 1 < freqs.length := by
  cases h : findPeaksIdxFiltO freqs grads dist_peaks svw svp winlen freq_slice stdv with
  | none =>
    have hfi : findPeaksIdxFilt freqs grads dist_peaks svw svp winlen freq_slice stdv
        = [] := by simp [findPeaksIdxFilt, h]
    rw [hfi]
    simp
  | some idx =>
    have hfi : findPeaksIdxFilt freqs grads dist_peaks svw svp winlen freq_slice stdv
        = idx := by simp [findPeaksIdxFilt, h]
    rw [hfi]
    simp only [findPeaksIdxFiltO, bind, Option.bind_eq_some, Option.pure_def,
      Option.some.injEq] at h
    obtain ⟨u1, hg1, filtered, hsg, mx, hmx, u2, hg2, u3, hg3, u4, hg4, u5, hg5,
      u6, hg6, u7, hg7, hpeak⟩ := h
    have hd : 1 ≤ pyRound (dist_peaks /
        ((freqs.getLast?.getD 0 - freqs.headD 0) / ((freqs.length : ℚ) - 1))) :=
      okIf_eq_some hg6
    subst hpeak
    have hsd : sampleDist freqs dist_peaks
        = (pyRound (dist_peaks /
          ((freqs.getLast?.getD 0 - freqs.headD 0)
            / ((freqs.length : ℚ) - 1)))).toNat := rfl
    constructor
    · refine List.Pairwise.imp ?_
        (List.Pairwise.sublist (List.filter_sublist _)
          (distanceSelect_gap _ _
            (pyRound (dist_peaks /
              ((freqs.getLast?.getD 0 - freqs.headD 0) / ((freqs.length : ℚ) - 1))))
            (List.Pairwise.sublist (List.filter_sublist _)
              (localMaxima_spec _ _).1)))
      intro a b hab
      rw [hsd]
      omega
    · intro p hp
      exact (localMaxima_spec _ _).2 p
        (List.mem_of_mem_filter ((distanceSelect_sublist _ _ _).subset
          ((List.filter_sublist _).subset hp)))

/-- C5, amended.  For every strictly increasing frequency axis `freqs`
and every input trace and parameter set, the detector output
`'Peak freqs filt'` is strictly sorted and every element lies between
the first and the last frequency of the sweep window; the sample indices
of any two detected peaks differ by at least
`round(dist_peaks/fdelta)` samples.  The frequency-domain separation
`dist_peaks` itself is enforced only in this sample-quantized form and
can be undershot (see the counterexample). -/
theorem C5_amended_detector_output (freqs grads : List ℚ) (dist_peaks : ℚ)
    (svw svp : ℕ) (winlen freq_slice stdv : ℚ)
    (hmono : List.Pairwise (· < ·) freqs) :
    List.Pairwise (fun p q : ℕ => p + sampleDist freqs dist_peaks ≤ q)
      (findPeaksIdxFilt freqs grads dist_peaks svw svp winlen freq_slice stdv)
    ∧ List.Pairwise (· < ·)
        (findPeaksFreqsFilt freqs grads dist_peaks svw svp winlen freq_slice stdv)
    ∧ ∀ f ∈ findPeaksFreqsFilt freqs grads dist_peaks svw svp winlen freq_slice stdv,
        freqs.headD 0 ≤ f ∧ f ≤ freqs.getLast?.getD 0 := by
  obtain ⟨hgap, hbnd⟩ :=
    findPeaksIdxFilt_spec freqs grads dist_peaks svw svp winlen freq_slice stdv
  have hmap : findPeaksFreqsFilt freqs grads dist_peaks svw svp winlen freq_slice stdv
      = (findPeaksIdxFilt freqs grads dist_peaks svw svp winlen freq_slice stdv).map
          (fun p => freqs.getD p 0) := rfl
  refine ⟨hgap.imp (fun h => h.1), ?_, ?_⟩
  · rw [hmap]
    refine List.pairwise_map.mpr (List.Pairwise.imp_of_mem ?_ hgap)
    intro p q hp hq hpq
    exact ratList_getD_lt freqs hmono hpq.2 (by have := hbnd q hq; omega)
  · intro f hf
    rw [hmap] at hf
    obtain ⟨p, hp, rfl⟩ := List.mem_map.mp hf
    obtain ⟨hp1, hpn⟩ := hbnd p hp
    refine ⟨?_, ?_⟩
    · rw [headD_eq_getD]
      exact ratList_getD_le freqs hmono (by omega) (by omega)
    · rw [getLast?_getD_eq_getD]
      exact ratList_getD_le freqs hmono (by omega) (by omega)

theorem C5_amended_detector_output_witness :
    List.Pairwise (· < ·) ([0, 1] : List ℚ)
      ∧ (List.Pairwise (fun p q : ℕ => p + sampleDist [0, 1] 1 ≤ q)
          (findPeaksIdxFilt [0, 1] [0, 0] 1 1 0 1 1 1)
        ∧ List.Pairwise (· < ·) (findPeaksFreqsFilt [0, 1] [0, 0] 1 1 0 1 1 1)
        ∧ ∀ f ∈ findPeaksFreqsFilt [0, 1] [0, 0] 1 1 0 1 1 1,
            ([0, 1] : List ℚ).headD 0 ≤ f
              ∧ f ≤ ([0, 1] : List ℚ).getLast?.getD 0) :=
  ⟨by decide, C5_amended_detector_output [0, 1] [0, 0] 1 1 0 1 1 1 (by decide)⟩


/-- A strictly increasing 101-point frequency axis starting at 5.2 GHz
with spacing 250000/151 Hz (the spacing a 60.4-sample peak distance
produces for `dist_peaks = 1e5`). -/
def c5freqs : List ℚ :=
  (List.range 101).map fun i => (5.2e9 : ℚ) + i * (250000 / 151)

/-- A nonnegative phase-gradient trace: exact integer samples of the
quartic `-t^4 + 200*t^3 - 13200*t^2 + 320000*t`, which has two equal
local maxima (value 2560000) at `t = 20` and `t = 80` and vanishes at
both ends. -/
def c5grads : List ℚ :=
  (List.range 101).map fun t =>
    -(t : ℚ) ^ 4 + 200 * t ^ 3 - 13200 * t ^ 2 + 320000 * t

set_option maxRecDepth 400000 in
lemma c5freqs_sorted : List.Pairwise (· < ·) c5freqs := by decide

set_option maxRecDepth 400000 in
lemma c5grads_nonneg : ∀ g ∈ c5grads, 0 ≤ g := by decide

set_option maxRecDepth 400000 in
/-- On the counterexample data the Savitzky-Golay filter is exact: the
window (101) covers the whole trace and the quartic data is recovered by
every degree-4 least-squares fit. -/
lemma c5_savgol : savgolFilter c5grads 101 4 = some c5grads := by decide

set_option maxRecDepth 400000 in
lemma c5_max : pyListMax c5grads = some 2560000 := by decide

set_option maxRecDepth 400000 in
lemma c5_idx_eq :
    findPeaksIdxFiltO c5freqs c5grads 1e5 101 4 1e9 10e6 1 = some [20, 80] := by
  simp only [findPeaksIdxFiltO, c5_savgol, c5_max, bind, Option.some_bind]
  decide

set_option maxRecDepth 400000 in
lemma c5_output_eq :
    findPeaksFreqsFilt c5freqs c5grads 1e5 101 4 1e9 10e6 1
      = [785205000000 / 151, 785220000000 / 151] := by
  simp only [findPeaksFreqsFilt, findPeaksIdxFilt, c5_idx_eq, Option.getD_some]
  decide

/-- C5, counterexample.  With the exact arguments `res_detect` passes to
`find_peaks` (`dist_peaks = 1e5`, `svw = 101`, `svp = 4`,
`winlen = 1e9`, `freq_slice = 10e6`, `stdv = 1`) and a strictly
increasing, nonnegative input trace, the detector returns the two
frequencies `freqs[20]` and `freqs[80]`, whose distance
`15000000/151 ≈ 99337.7 Hz` is below the requested minimal peak distance
`1e5`: the minimal distance is enforced in integer samples
(`round(dist_peaks/fdelta) = 60` samples here), not in frequency, so
detected peaks can be closer than `dist_peaks`. -/
theorem C5_counterexample :
    List.Pairwise (· < ·) c5freqs
      ∧ (∀ g ∈ c5grads, 0 ≤ g)
      ∧ findPeaksFreqsFilt c5freqs c5grads 1e5 101 4 1e9 10e6 1
          = [785205000000 / 151, 785220000000 / 151]
      ∧ (785220000000 / 151 : ℚ) - 785205000000 / 151 < 1e5 :=
  ⟨c5freqs_sorted, c5grads_nonneg, c5_output_eq, by decide⟩

end FiltCav
